import Mathlib

/-!
Verification of the StremThru qBittorrent / proxy-link core against its
natural-language specification.

Go strings are byte sequences; we embed them as `List Nat` (each element a
byte value).  Machine integers (`int64`, `int`) are embedded as `Int` or, for
indices and times that the program keeps non-negative, as `Nat`.  Fallible Go
functions returning `(T, error)` are embedded as `Option`/`Except`.
-/

/-- A Go string: a sequence of bytes. -/
abbrev GoStr : Type := List Nat

/-- Literal helper: view an ASCII Lean string as a Go byte string. -/
def gs (s : String) : GoStr := s.data.map Char.toNat

/-- Every byte of the string is an actual byte value (< 256). -/
def ValidBytes (s : GoStr) : Prop := ∀ c ∈ s, c < 256

instance (s : GoStr) : Decidable (ValidBytes s) := by
  unfold ValidBytes; exact List.decidableBAll _ s

/-- Go `strings.HasPrefix`. -/
def goStartsWith (pre s : GoStr) : Bool := List.isPrefixOf pre s

/-- Go `strings.TrimPrefix`. -/
def goTrimPre (pre s : GoStr) : GoStr :=
  if goStartsWith pre s then List.drop (List.length pre) s else s

/-- Go `strings.CutPrefix` (returns the trimmed string and a found flag). -/
def goCutPre (pre s : GoStr) : GoStr × Bool :=
  if goStartsWith pre s then (List.drop (List.length pre) s, true) else (s, false)

/-- Go `strings.TrimRight(s, c)` for a one-byte cutset: drop trailing `c`s. -/
def goTrimRightByte (c : Nat) (s : GoStr) : GoStr :=
  List.reverse (List.dropWhile (fun b => b == c) (List.reverse s))

/-- Find the first occurrence of `sep` in `s`; return the parts before/after. -/
def cutSub (sep s : GoStr) : Option (GoStr × GoStr) :=
  match s with
  | [] => if sep = [] then some ([], []) else none
  | c :: rest =>
    if goStartsWith sep (c :: rest) then some ([], List.drop (List.length sep) (c :: rest))
    else match cutSub sep rest with
         | some (a, b) => some (c :: a, b)
         | none => none

theorem cutSub_tail_lt (sep s a b : GoStr) (hsep : sep ≠ [])
    (h : cutSub sep s = some (a, b)) : List.length b < List.length s := by
  induction s generalizing a b with
  | nil =>
    simp only [cutSub] at h
    rw [if_neg hsep] at h
    cases h
  | cons c rest ih =>
    simp only [cutSub] at h
    split at h
    · rename_i hp
      cases h
      have h1 : 1 ≤ List.length sep := by
        cases sep with
        | nil => exact absurd rfl hsep
        | cons _ _ => simp
      have := List.length_drop (List.length sep) (c :: rest)
      simp only [this, List.length_cons]
      omega
    · cases hcut : cutSub sep rest with
      | none => rw [hcut] at h; cases h
      | some ab =>
        rw [hcut] at h
        cases ab with
        | mk a' b' =>
          simp only [Option.some.injEq, Prod.mk.injEq] at h
          obtain ⟨h1, h2⟩ := h
          subst h2
          have := ih a' b' hcut
          simp only [List.length_cons]
          omega

/-- Go `strings.Contains`. -/
def containsSub (sep s : GoStr) : Bool := (cutSub sep s).isSome

/-- Go `strings.Cut`: split around the first occurrence of `sep`. -/
def goCut (sep s : GoStr) : GoStr × GoStr × Bool :=
  match cutSub sep s with
  | some (a, b) => (a, b, true)
  | none => (s, [], false)

/-- Go `strings.SplitN(s, sep, n)` for a one-byte separator and `n > 0`:
at most `n` parts, the last part keeping the unsplit remainder. -/
def goSplitN (sep : Nat) (n : Nat) (s : GoStr) : List GoStr :=
  match n with
  | 0 => []
  | 1 => [s]
  | Nat.succ (Nat.succ m) =>
    match cutSub [sep] s with
    | none => [s]
    | some (a, b) => a :: goSplitN sep (Nat.succ m) b

/-- Fuel-based worker for `goSplitAll`; the fuel `List.length s` always
suffices because each split strictly shortens the remainder. -/
def goSplitAllAux (fuel : Nat) (sep : Nat) (s : GoStr) : List GoStr :=
  match fuel with
  | 0 => [s]
  | Nat.succ fuel' =>
    match cutSub [sep] s with
    | none => [s]
    | some (a, b) => a :: goSplitAllAux fuel' sep b

/-- Go `strings.Split(s, sep)` for a one-byte separator: split on every
occurrence. -/
def goSplitAll (sep : Nat) (s : GoStr) : List GoStr :=
  goSplitAllAux (List.length s) sep s

/-- Go `strings.Join` for a one-byte separator. -/
def goJoin (sep : Nat) : List GoStr → GoStr
  | [] => []
  | [s] => s
  | s :: rest => s ++ sep :: goJoin sep rest

/-- The ASCII space class used by Go `strings.TrimSpace` on ASCII input. -/
def isSpaceByte (c : Nat) : Bool :=
  c == 32 || c == 9 || c == 10 || c == 11 || c == 12 || c == 13

/-- `strings.TrimSpace(part) == ""`: the string is empty or all whitespace. -/
def isBlank (s : GoStr) : Bool := List.all s isSpaceByte

/-- Decimal digit byte (`'0'..'9'`). -/
def isDigitByte (c : Nat) : Bool := 48 ≤ c && c ≤ 57

/-- Value of a digit string (most significant first), ignoring validity. -/
def decValue (s : GoStr) : Nat := List.foldl (fun acc c => acc * 10 + (c - 48)) 0 s

/-- Parse a non-empty all-digit string to a natural number. -/
def decToNatOpt (s : GoStr) : Option Nat :=
  if s ≠ [] ∧ List.all s isDigitByte then some (decValue s) else none

/-- Decimal digits of `n` (most significant first), fuel-based so that the
kernel can evaluate it. -/
def decDigitsAux (fuel n : Nat) : GoStr :=
  match fuel with
  | 0 => []
  | Nat.succ fuel' => if n = 0 then [] else decDigitsAux fuel' (n / 10) ++ [48 + n % 10]

/-- Go `strconv.Itoa`/`FormatInt` for a natural number. -/
def natToDec (n : Nat) : GoStr := if n = 0 then [48] else decDigitsAux (n + 1) n

/-- Go `strconv.FormatInt(i, 10)`. -/
def goFormatInt (i : Int) : GoStr :=
  if i < 0 then 45 :: natToDec (-i).toNat else natToDec i.toNat

/-- Go `strconv.Atoi` (64-bit overflow ignored; all uses are small). -/
def goAtoi (s : GoStr) : Option Int :=
  match s with
  | [] => none
  | c :: rest =>
    if c = 43 then Option.map (fun n => (n : Int)) (decToNatOpt rest)
    else if c = 45 then Option.map (fun n => -(n : Int)) (decToNatOpt rest)
    else Option.map (fun n => (n : Int)) (decToNatOpt (c :: rest))

theorem decDigitsAux_all_digits (fuel n : Nat) :
    List.all (decDigitsAux fuel n) isDigitByte = true := by
  induction fuel generalizing n with
  | zero => simp [decDigitsAux]
  | succ fuel ih =>
    simp only [decDigitsAux]
    split
    · simp
    · simp only [List.all_append, ih]
      simp [isDigitByte]
      omega

theorem decValue_append_digit (a : GoStr) (d : Nat) :
    decValue (a ++ [d]) = decValue a * 10 + (d - 48) := by
  simp [decValue, List.foldl_append]

theorem decValue_decDigitsAux (fuel n : Nat) (h : n < fuel) :
    decValue (decDigitsAux fuel n) = n := by
  induction fuel generalizing n with
  | zero => omega
  | succ fuel ih =>
    simp only [decDigitsAux]
    split
    · rename_i h0; simp [decValue, h0]
    · rename_i hn
      rw [decValue_append_digit]
      have hdiv : n / 10 < fuel := by
        have : n / 10 < n := Nat.div_lt_self (Nat.pos_of_ne_zero hn) (by omega)
        omega
      rw [ih _ hdiv]
      omega

theorem natToDec_all_digits (n : Nat) : List.all (natToDec n) isDigitByte = true := by
  unfold natToDec
  split
  · simp [isDigitByte]
  · exact decDigitsAux_all_digits _ _

theorem natToDec_ne_nil (n : Nat) : natToDec n ≠ [] := by
  unfold natToDec
  split
  · simp
  · rename_i hn
    simp only [decDigitsAux]
    rw [if_neg hn]
    simp

theorem decToNatOpt_natToDec (n : Nat) : decToNatOpt (natToDec n) = some n := by
  unfold decToNatOpt
  rw [if_pos ⟨natToDec_ne_nil n, natToDec_all_digits n⟩]
  congr 1
  unfold natToDec
  split
  · rename_i h; simp [decValue, h]
  · exact decValue_decDigitsAux _ _ (by omega)

theorem natToDec_head_digit (n : Nat) :
    ∀ c rest, natToDec n = c :: rest → isDigitByte c = true := by
  intro c rest h
  have := natToDec_all_digits n
  rw [h] at this
  simp only [List.all_cons, Bool.and_eq_true] at this
  exact this.1

theorem goAtoi_natToDec (n : Nat) : goAtoi (natToDec n) = some (n : Int) := by
  cases h : natToDec n with
  | nil => exact absurd h (natToDec_ne_nil n)
  | cons c rest =>
    have hd : isDigitByte c = true := natToDec_head_digit n c rest h
    simp only [isDigitByte, Bool.and_eq_true, decide_eq_true_eq] at hd
    simp only [goAtoi]
    rw [if_neg (by omega), if_neg (by omega)]
    rw [← h, decToNatOpt_natToDec]
    simp

theorem valid_natToDec (n : Nat) : ValidBytes (natToDec n) := by
  intro c hc
  have := natToDec_all_digits n
  rw [List.all_eq_true] at this
  have := this c hc
  simp only [isDigitByte, Bool.and_eq_true, decide_eq_true_eq] at this
  omega

theorem isPrefixOf_append (p x : GoStr) : List.isPrefixOf p (p ++ x) = true := by
  induction p with
  | nil => simp [List.isPrefixOf]
  | cons c cs ih => simp [List.isPrefixOf, ih]

theorem goTrimPre_append (p x : GoStr) : goTrimPre p (p ++ x) = x := by
  unfold goTrimPre goStartsWith
  rw [isPrefixOf_append]
  simp

theorem cutSub_single_append (c : Nat) (a b : GoStr) (h : c ∉ a) :
    cutSub [c] (a ++ c :: b) = some (a, b) := by
  induction a with
  | nil =>
    simp only [List.nil_append, cutSub]
    rw [if_pos (by simp [goStartsWith, List.isPrefixOf])]
    simp
  | cons x xs ih =>
    have hx : x ≠ c := by intro he; exact h (by simp [he])
    have hxs : c ∉ xs := fun hm => h (by simp [hm])
    simp only [List.cons_append, cutSub]
    rw [if_neg (by simp [goStartsWith, List.isPrefixOf]; intro he; exact absurd he.symm hx)]
    simp only [List.append_eq]
    rw [ih hxs]

theorem goCut_single_append (c : Nat) (a b : GoStr) (h : c ∉ a) :
    goCut [c] (a ++ c :: b) = (a, b, true) := by
  unfold goCut
  rw [cutSub_single_append c a b h]

theorem cutSub_none_of_not_mem (c : Nat) (s : GoStr) (h : c ∉ s) :
    cutSub [c] s = none := by
  induction s with
  | nil => simp [cutSub]
  | cons x xs ih =>
    have hx : x ≠ c := by intro he; exact h (by simp [he])
    have hxs : c ∉ xs := fun hm => h (by simp [hm])
    simp only [cutSub]
    rw [if_neg (by simp [goStartsWith, List.isPrefixOf]; intro he; exact absurd he.symm hx)]
    rw [ih hxs]

theorem goCut_single_not_found (c : Nat) (s : GoStr) (h : c ∉ s) :
    goCut [c] s = (s, [], false) := by
  unfold goCut
  rw [cutSub_none_of_not_mem c s h]

theorem takeWhile_append_stop (p : Nat → Bool) (a : GoStr) (c : Nat) (b : GoStr)
    (ha : List.all a p = true) (hc : p c = false) :
    List.takeWhile p (a ++ c :: b) = a ∧ List.dropWhile p (a ++ c :: b) = c :: b := by
  induction a with
  | nil => simp [List.takeWhile_cons, List.dropWhile_cons, hc]
  | cons x xs ih =>
    simp only [List.all_cons, Bool.and_eq_true] at ha
    have := ih ha.2
    simp [List.takeWhile_cons, List.dropWhile_cons, ha.1, this.1, this.2]

/-- Length-prefixed string framing used by the modelled serializers:
decimal length, `#`, then the raw bytes. -/
def lenStr (s : GoStr) : GoStr := natToDec (List.length s) ++ 35 :: s

/-- Inverse of `lenStr` applied at the front of a stream. -/
def parseLenStr (s : GoStr) : Option (GoStr × GoStr) :=
  match decToNatOpt (List.takeWhile isDigitByte s), List.dropWhile isDigitByte s with
  | some n, 35 :: r => if n ≤ List.length r then some (List.take n r, List.drop n r) else none
  | _, _ => none

theorem parseLenStr_lenStr (a rest : GoStr) :
    parseLenStr (lenStr a ++ rest) = some (a, rest) := by
  unfold lenStr parseLenStr
  have hsplit := takeWhile_append_stop isDigitByte (natToDec (List.length a)) 35 (a ++ rest)
      (natToDec_all_digits _) (by decide)
  rw [List.append_assoc, List.cons_append]
  rw [hsplit.1, hsplit.2, decToNatOpt_natToDec]
  simp [List.take_left, List.drop_left]

theorem valid_lenStr (a : GoStr) (h : ValidBytes a) : ValidBytes (lenStr a) := by
  intro c hc
  unfold lenStr at hc
  rw [List.mem_append] at hc
  cases hc with
  | inl hm => exact valid_natToDec _ c hm
  | inr hm =>
    cases hm with
    | head => omega
    | tail _ hm2 => exact h c hm2

/-- The standard base64 alphabet. -/
def b64chars : GoStr :=
  gs "ABCDEFGHIJKLMNOPQRSTUVWXYZabcdefghijklmnopqrstuvwxyz0123456789+/"

/-- Byte of the base64 alphabet at sextet `n`. -/
def sextetChar (n : Nat) : Nat := List.getD b64chars n 65

/-- Sextet of an alphabet byte, `none` for non-alphabet bytes. -/
def charSextetAux (c : Nat) (l : List Nat) (i : Nat) : Option Nat :=
  match l with
  | [] => none
  | x :: r => if x = c then some i else charSextetAux c r (i + 1)

/-- Decode one base64 alphabet byte. -/
def charSextetOpt (c : Nat) : Option Nat := charSextetAux c b64chars 0

/-- Modelled from the spec: `util.Base64Encode`/`core.Base64Encode` (standard
base64, RFC 4648) are not under `src/`; this is a faithful executable base64
encoder over byte strings. -/
def b64encodeBytes : GoStr → GoStr
  | b1 :: b2 :: b3 :: rest =>
    sextetChar (b1 / 4) :: sextetChar ((b1 % 4) * 16 + b2 / 16) ::
    sextetChar ((b2 % 16) * 4 + b3 / 64) :: sextetChar (b3 % 64) :: b64encodeBytes rest
  | [b1, b2] =>
    [sextetChar (b1 / 4), sextetChar ((b1 % 4) * 16 + b2 / 16), sextetChar ((b2 % 16) * 4), 61]
  | [b1] => [sextetChar (b1 / 4), sextetChar ((b1 % 4) * 16), 61, 61]
  | [] => []

/-- Modelled from the spec: the base64 decoder matching `b64encodeBytes`;
returns `none` on malformed input. -/
def b64decodeBytes : GoStr → Option GoStr
  | [] => some []
  | c1 :: c2 :: c3 :: c4 :: rest =>
    match charSextetOpt c1, charSextetOpt c2 with
    | some s1, some s2 =>
      if c3 = 61 then
        if c4 = 61 ∧ rest = [] then some [s1 * 4 + s2 / 16] else none
      else
        match charSextetOpt c3 with
        | some s3 =>
          if c4 = 61 then
            if rest = [] then some [s1 * 4 + s2 / 16, (s2 % 16) * 16 + s3 / 4] else none
          else
            match charSextetOpt c4 with
            | some s4 =>
              match b64decodeBytes rest with
              | some bs =>
                some ((s1 * 4 + s2 / 16) :: ((s2 % 16) * 16 + s3 / 4) :: ((s3 % 4) * 64 + s4) :: bs)
              | none => none
            | none => none
        | none => none
    | _, _ => none
  | _ => none

theorem charSextetOpt_sextetChar : ∀ n < 64, charSextetOpt (sextetChar n) = some n := by
  decide

theorem sextetChar_ne_pad : ∀ n < 64, sextetChar n ≠ 61 := by
  decide

theorem b64_roundtrip : ∀ s : GoStr, ValidBytes s →
    b64decodeBytes (b64encodeBytes s) = some s
  | [], _ => by simp [b64encodeBytes, b64decodeBytes]
  | [b1], h => by
    have hb1 : b1 < 256 := h b1 (by simp)
    have e1 : charSextetOpt (sextetChar (b1 / 4)) = some (b1 / 4) :=
      charSextetOpt_sextetChar _ (by omega)
    have e2 : charSextetOpt (sextetChar ((b1 % 4) * 16)) = some ((b1 % 4) * 16) :=
      charSextetOpt_sextetChar _ (by omega)
    simp [b64encodeBytes, b64decodeBytes, e1, e2]
    omega
  | [b1, b2], h => by
    have hb1 : b1 < 256 := h b1 (by simp)
    have hb2 : b2 < 256 := h b2 (by simp)
    have e1 : charSextetOpt (sextetChar (b1 / 4)) = some (b1 / 4) :=
      charSextetOpt_sextetChar _ (by omega)
    have e2 : charSextetOpt (sextetChar ((b1 % 4) * 16 + b2 / 16)) =
        some ((b1 % 4) * 16 + b2 / 16) :=
      charSextetOpt_sextetChar _ (by omega)
    have e3 : charSextetOpt (sextetChar ((b2 % 16) * 4)) = some ((b2 % 16) * 4) :=
      charSextetOpt_sextetChar _ (by omega)
    have hne3 : sextetChar ((b2 % 16) * 4) ≠ 61 := sextetChar_ne_pad _ (by omega)
    simp [b64encodeBytes, b64decodeBytes, e1, e2, e3, hne3]
    omega
  | [b1, b2, b3], h => by
    have hb1 : b1 < 256 := h b1 (by simp)
    have hb2 : b2 < 256 := h b2 (by simp)
    have hb3 : b3 < 256 := h b3 (by simp)
    have e1 : charSextetOpt (sextetChar (b1 / 4)) = some (b1 / 4) :=
      charSextetOpt_sextetChar _ (by omega)
    have e2 : charSextetOpt (sextetChar ((b1 % 4) * 16 + b2 / 16)) =
        some ((b1 % 4) * 16 + b2 / 16) :=
      charSextetOpt_sextetChar _ (by omega)
    have e3 : charSextetOpt (sextetChar ((b2 % 16) * 4 + b3 / 64)) =
        some ((b2 % 16) * 4 + b3 / 64) :=
      charSextetOpt_sextetChar _ (by omega)
    have e4 : charSextetOpt (sextetChar (b3 % 64)) = some (b3 % 64) :=
      charSextetOpt_sextetChar _ (by omega)
    have hne3 : sextetChar ((b2 % 16) * 4 + b3 / 64) ≠ 61 := sextetChar_ne_pad _ (by omega)
    have hne4 : sextetChar (b3 % 64) ≠ 61 := sextetChar_ne_pad _ (by omega)
    simp [b64encodeBytes, b64decodeBytes, e1, e2, e3, e4, hne3, hne4]
    omega
  | b1 :: b2 :: b3 :: c :: rest, h => by
    have hb1 : b1 < 256 := h b1 (by simp)
    have hb2 : b2 < 256 := h b2 (by simp)
    have hb3 : b3 < 256 := h b3 (by simp)
    have hrest : ValidBytes (c :: rest) := fun x hx => h x (by
      simp only [List.mem_cons] at hx ⊢
      tauto)
    have ih := b64_roundtrip (c :: rest) hrest
    have e1 : charSextetOpt (sextetChar (b1 / 4)) = some (b1 / 4) :=
      charSextetOpt_sextetChar _ (by omega)
    have e2 : charSextetOpt (sextetChar ((b1 % 4) * 16 + b2 / 16)) =
        some ((b1 % 4) * 16 + b2 / 16) :=
      charSextetOpt_sextetChar _ (by omega)
    have e3 : charSextetOpt (sextetChar ((b2 % 16) * 4 + b3 / 64)) =
        some ((b2 % 16) * 4 + b3 / 64) :=
      charSextetOpt_sextetChar _ (by omega)
    have e4 : charSextetOpt (sextetChar (b3 % 64)) = some (b3 % 64) :=
      charSextetOpt_sextetChar _ (by omega)
    have hne3 : sextetChar ((b2 % 16) * 4 + b3 / 64) ≠ 61 := sextetChar_ne_pad _ (by omega)
    have hne4 : sextetChar (b3 % 64) ≠ 61 := sextetChar_ne_pad _ (by omega)
    simp only [b64encodeBytes, b64decodeBytes, e1, e2, e3, e4]
    rw [if_neg hne3, if_neg hne4, ih]
    simp only [Option.some.injEq, List.cons.injEq]
    refine ⟨by omega, by omega, by omega, trivial⟩

/-! ### Locked file link codec (store/qbittorrent/store.go) -/

/-- `lockedFileLinkPrefix` from `store.go`. -/
def lockedFileLinkScheme : GoStr := gs "stremthru://store/qbittorrent/"

/-- `LockedFileLink.create`: scheme + base64 of `hash + ":" + strconv.Itoa(idx)`. -/
def lflCreate (hash : GoStr) (fileIndex : Int) : GoStr :=
  lockedFileLinkScheme ++ b64encodeBytes (hash ++ 58 :: goFormatInt fileIndex)

/-- `LockedFileLink.parse`: trim the scheme, base64-decode, cut at the first
`:`, parse the index with `strconv.Atoi`. -/
def lflParse (link : GoStr) : Option (GoStr × Int) :=
  Option.bind (b64decodeBytes (goTrimPre lockedFileLinkScheme link)) (fun decoded =>
    if (goCut [58] decoded).2.2 then
      Option.bind (goAtoi (goCut [58] decoded).2.1) (fun i => some ((goCut [58] decoded).1, i))
    else none)

theorem goFormatInt_ofNat (n : Nat) : goFormatInt (n : Int) = natToDec n := by
  unfold goFormatInt
  rw [if_neg (by omega)]
  simp

/-- C5: for every 40-character lowercase hex hash and every non-negative
index, parsing the locked file link produced by `create(hash, idx)` succeeds
and returns exactly `(hash, idx)`. -/
theorem lockedFileLink_roundtrip (hash : GoStr) (idx : Nat)
    (hlen : List.length hash = 40)
    (hhex : ∀ c ∈ hash, (48 ≤ c ∧ c ≤ 57) ∨ (97 ≤ c ∧ c ≤ 102)) :
    lflParse (lflCreate hash (idx : Int)) = some (hash, (idx : Int)) := by
  unfold lflCreate lflParse
  rw [goTrimPre_append]
  have hvalid : ValidBytes (hash ++ 58 :: goFormatInt (idx : Int)) := by
    intro c hc
    rw [List.mem_append, List.mem_cons] at hc
    rcases hc with hm | hm | hm
    · have := hhex c hm; omega
    · omega
    · rw [goFormatInt_ofNat] at hm
      exact valid_natToDec idx c hm
  rw [b64_roundtrip _ hvalid]
  have hnotin : (58 : Nat) ∉ hash := by
    intro hm
    have := hhex 58 hm
    omega
  rw [Option.some_bind]
  rw [goCut_single_append 58 hash (goFormatInt (idx : Int)) hnotin]
  simp only [if_pos rfl]
  rw [goFormatInt_ofNat, goAtoi_natToDec]
  rfl

/-- Witness for C5 at a concrete 40-hex hash and index 3. -/
theorem lockedFileLink_roundtrip_witness :
    lflParse (lflCreate (gs "abcdef1234567890abcdef1234567890abcdef12") ((3 : Nat) : Int)) =
      some (gs "abcdef1234567890abcdef1234567890abcdef12", ((3 : Nat) : Int)) :=
  lockedFileLink_roundtrip (gs "abcdef1234567890abcdef1234567890abcdef12") 3
    (by decide) (by decide)

/-! ### qBittorrent API-key token (store/qbittorrent/client.go parseToken) -/

/-- `pathMapping` from `client.go`. -/
structure PathMapping where
  From : GoStr
  To : GoStr
deriving DecidableEq, Repr

/-- `qbitConfig` from `client.go`. -/
structure QbitConfig where
  url : GoStr
  username : GoStr
  password : GoStr
  fileBaseURL : GoStr
  pathMapping : Option PathMapping
deriving DecidableEq, Repr

/-- `parseToken` from `client.go`: `SplitN(token, "|", 5)`, at least 4 parts
with the first four non-blank, URLs with trailing `/` trimmed, optional fifth
field `from:to` path mapping split at the first `:` with non-empty `from`. -/
def parseToken (token : GoStr) : Option QbitConfig :=
  if List.length (goSplitN 124 5 token) < 4 then none
  else if List.any (List.take 4 (goSplitN 124 5 token)) isBlank then none
  else if List.length (goSplitN 124 5 token) = 5 ∧
      List.getD (goSplitN 124 5 token) 4 [] ≠ [] then
    if List.length (goSplitN 58 2 (List.getD (goSplitN 124 5 token) 4 [])) ≠ 2 then none
    else if List.getD (goSplitN 58 2 (List.getD (goSplitN 124 5 token) 4 [])) 0 [] = [] then
      none
    else some {
      url := goTrimRightByte 47 (List.getD (goSplitN 124 5 token) 0 []),
      username := List.getD (goSplitN 124 5 token) 1 [],
      password := List.getD (goSplitN 124 5 token) 2 [],
      fileBaseURL := goTrimRightByte 47 (List.getD (goSplitN 124 5 token) 3 []),
      pathMapping := some {
        From := List.getD (goSplitN 58 2 (List.getD (goSplitN 124 5 token) 4 [])) 0 [],
        To := List.getD (goSplitN 58 2 (List.getD (goSplitN 124 5 token) 4 [])) 1 [] } }
  else some {
    url := goTrimRightByte 47 (List.getD (goSplitN 124 5 token) 0 []),
    username := List.getD (goSplitN 124 5 token) 1 [],
    password := List.getD (goSplitN 124 5 token) 2 [],
    fileBaseURL := goTrimRightByte 47 (List.getD (goSplitN 124 5 token) 3 []),
    pathMapping := none }

/-- A token whose fifth `SplitN` part still contains a `|`: six raw
pipe-separated fields, yet `parseToken` accepts it with a path mapping. -/
theorem parseToken_counterexample :
    parseToken (gs "a|b|c|d|e:f|g") = some {
      url := gs "a", username := gs "b", password := gs "c", fileBaseURL := gs "d",
      pathMapping := some { From := gs "e", To := gs "f|g" } } ∧
    List.length (goSplitAll 124 (gs "a|b|c|d|e:f|g")) = 6 := by
  constructor
  · decide
  · decide

/-! ### buildFileURL (store/qbittorrent/store.go) and Go net/url.PathEscape -/

/-- Go `net/url.shouldEscape(c, encodePathSegment)`: alphanumerics and
`- _ . ~` are never escaped; of the RFC 3986 reserved bytes
`$ & + , / : ; = ? @` only `/ ; , ?` are escaped in a path segment; every
other byte is escaped. -/
def shouldEscapeSegByte (c : Nat) : Bool :=
  if (97 ≤ c ∧ c ≤ 122) ∨ (65 ≤ c ∧ c ≤ 90) ∨ (48 ≤ c ∧ c ≤ 57) then false
  else if c = 45 ∨ c = 95 ∨ c = 46 ∨ c = 126 then false
  else if c = 36 ∨ c = 38 ∨ c = 43 ∨ c = 44 ∨ c = 47 ∨ c = 58 ∨ c = 59 ∨
      c = 61 ∨ c = 63 ∨ c = 64 then
    decide (c = 47 ∨ c = 59 ∨ c = 44 ∨ c = 63)
  else true

/-- Uppercase hex digit byte, as used by Go `net/url` escaping. -/
def hexDigitUpper (n : Nat) : Nat := if n < 10 then 48 + n else 55 + n

/-- One percent-escaped byte: `%XY` with uppercase hex. -/
def pctEncodeByte (c : Nat) : GoStr := [37, hexDigitUpper (c / 16), hexDigitUpper (c % 16)]

/-- Go `url.PathEscape` on one path segment, byte by byte. -/
def pathEscapeSeg (s : GoStr) : GoStr :=
  List.bind s (fun c => if shouldEscapeSegByte c then pctEncodeByte c else [c])

/-- `buildFileURL` from `store.go`: split the file name on `/`, percent-escape
each segment, re-join with `/`, and append to the base URL after a `/`. -/
def buildFileURL (fileBaseURL fileName : GoStr) : GoStr :=
  fileBaseURL ++ 47 :: goJoin 47 (List.map pathEscapeSeg (goSplitAll 47 fileName))

example : buildFileURL (gs "http://localhost:8080") (gs "ubuntu-22.04.iso") =
    gs "http://localhost:8080/ubuntu-22.04.iso" := by decide

example : buildFileURL (gs "http://localhost:8080") (gs "Movie (2024)/Movie [1080p].mkv") =
    gs "http://localhost:8080/Movie%20%282024%29/Movie%20%5B1080p%5D.mkv" := by decide

example : buildFileURL (gs "http://files.example.com") (gs "Show/Season 1/Episode 01.mkv") =
    gs "http://files.example.com/Show/Season%201/Episode%2001.mkv" := by decide

example : buildFileURL (gs "http://localhost:8080") (gs "file #1 100%.mkv") =
    gs "http://localhost:8080/file%20%231%20100%25.mkv" := by decide

/-- The byte `&` (38) is not unreserved, yet `buildFileURL` leaves it
unescaped in a segment (as Go `url.PathEscape` does). -/
theorem buildFileURL_counterexample :
    buildFileURL (gs "http://localhost:8080") (gs "a&b.mkv") =
      gs "http://localhost:8080/a&b.mkv" ∧
    shouldEscapeSegByte 38 = false := by
  constructor
  · decide
  · decide

theorem goSplitAllAux_no_sep (fuel : Nat) (c : Nat) (s : GoStr) (h : c ∉ s) :
    goSplitAllAux fuel c s = [s] := by
  cases fuel with
  | zero => rfl
  | succ f => simp [goSplitAllAux, cutSub_none_of_not_mem c s h]

set_option maxRecDepth 8000 in
/-- C7 (amended): inside each path segment the unescaped bytes are exactly the
unreserved bytes (alphanumeric, `- . _ ~`) together with `$ & + : = @`; every
other byte — space, `#`, `%`, brackets, parentheses, `; , ?`, non-ASCII — is
percent-encoded with uppercase hex; `/` is the segment separator. -/
theorem buildFileURL_escaping :
    (∀ c, c < 256 → (shouldEscapeSegByte c = false ↔
        ((48 ≤ c ∧ c ≤ 57) ∨ (65 ≤ c ∧ c ≤ 90) ∨ (97 ≤ c ∧ c ≤ 122) ∨
         c = 45 ∨ c = 46 ∨ c = 95 ∨ c = 126 ∨
         c = 36 ∨ c = 38 ∨ c = 43 ∨ c = 58 ∨ c = 61 ∨ c = 64))) ∧
    (∀ a b : GoStr, pathEscapeSeg (a ++ b) = pathEscapeSeg a ++ pathEscapeSeg b) ∧
    (∀ c, shouldEscapeSegByte c = true →
        pathEscapeSeg [c] = [37, hexDigitUpper (c / 16), hexDigitUpper (c % 16)]) ∧
    (∀ c, shouldEscapeSegByte c = false → pathEscapeSeg [c] = [c]) ∧
    (∀ base name : GoStr, (47 : Nat) ∉ name →
        buildFileURL base name = base ++ 47 :: pathEscapeSeg name) := by
  refine ⟨by decide, ?_, ?_, ?_, ?_⟩
  · intro a b
    simp [pathEscapeSeg]
  · intro c hc
    simp [pathEscapeSeg, pctEncodeByte, hc]
  · intro c hc
    simp [pathEscapeSeg, hc]
  · intro base name hnotin
    unfold buildFileURL goSplitAll
    rw [goSplitAllAux_no_sep _ 47 name hnotin]
    rfl


/-- Witness for C7 at concrete bytes (`#` is escaped; a name without `/` is a
single escaped segment). -/
theorem buildFileURL_escaping_witness :
    pathEscapeSeg [35] = [37, hexDigitUpper (35 / 16), hexDigitUpper (35 % 16)] ∧
    buildFileURL (gs "http://files") (gs "movie (2024).mkv") =
      gs "http://files" ++ 47 :: pathEscapeSeg (gs "movie (2024).mkv") :=
  ⟨buildFileURL_escaping.2.2.1 35 (by decide),
   buildFileURL_escaping.2.2.2.2 (gs "http://files") (gs "movie (2024).mkv") (by decide)⟩

theorem goSplitN_two_some (c : Nat) (s a b : GoStr) (h : cutSub [c] s = some (a, b)) :
    goSplitN c 2 s = [a, b] := by
  simp [goSplitN, h]

theorem goSplitN_two_none (c : Nat) (s : GoStr) (h : cutSub [c] s = none) :
    goSplitN c 2 s = [s] := by
  simp [goSplitN, h]

/-- C6 (amended): for every token accepted by `parseToken`, the result carries
a non-nil path mapping iff `SplitN(token, "|", 5)` yields 5 parts with a
non-empty fifth part (pipes beyond the fourth are folded into that part, so
the raw token may have more than 5 pipe-separated fields); the fifth part then
contains at least one `:`, and only the first `:` splits `From` from `To`. -/
theorem parseToken_pathMapping_iff (token : GoStr) (cfg : QbitConfig)
    (h : parseToken token = some cfg) :
    ((cfg.pathMapping ≠ none) ↔
      (List.length (goSplitN 124 5 token) = 5 ∧ List.getD (goSplitN 124 5 token) 4 [] ≠ [])) ∧
    (∀ pm, cfg.pathMapping = some pm →
      containsSub [58] (List.getD (goSplitN 124 5 token) 4 []) = true ∧
      pm.From = (goCut [58] (List.getD (goSplitN 124 5 token) 4 [])).1 ∧
      pm.To = (goCut [58] (List.getD (goSplitN 124 5 token) 4 [])).2.1) := by
  unfold parseToken at h
  split at h
  · simp at h
  split at h
  · simp at h
  split at h
  · rename_i h5
    split at h
    · simp at h
    rename_i hlen2ne
    split at h
    · simp at h
    rw [Option.some.injEq] at h
    subst h
    have hlen2 : List.length (goSplitN 58 2 (List.getD (goSplitN 124 5 token) 4 [])) = 2 :=
      not_not.mp hlen2ne
    refine ⟨iff_of_true (by simp) h5, ?_⟩
    intro pm hpm
    simp only [Option.some.injEq] at hpm
    subst hpm
    cases hc : cutSub [58] (List.getD (goSplitN 124 5 token) 4 []) with
    | none =>
      rw [goSplitN_two_none 58 _ hc] at hlen2
      simp at hlen2
    | some ab =>
      obtain ⟨a, b⟩ := ab
      refine ⟨?_, ?_, ?_⟩
      · show containsSub [58] (List.getD (goSplitN 124 5 token) 4 []) = true
        unfold containsSub
        rw [hc]
        rfl
      · rw [goSplitN_two_some 58 _ a b hc]
        unfold goCut
        rw [hc]
        rfl
      · rw [goSplitN_two_some 58 _ a b hc]
        unfold goCut
        rw [hc]
        rfl
  · rename_i h5
    rw [Option.some.injEq] at h
    subst h
    refine ⟨⟨fun hne => by simp at hne, fun hr => absurd hr h5⟩, ?_⟩
    intro pm hpm
    simp at hpm

/-- Witness for C6 (amended) at a concrete token with a path mapping. -/
theorem parseToken_pathMapping_iff_witness :
    (((QbitConfig.mk (gs "a") (gs "b") (gs "c") (gs "d")
        (some ⟨gs "x", gs "y"⟩)).pathMapping ≠ none) ↔
      (List.length (goSplitN 124 5 (gs "a|b|c|d|x:y")) = 5 ∧
       List.getD (goSplitN 124 5 (gs "a|b|c|d|x:y")) 4 [] ≠ [])) ∧
    (∀ pm, (QbitConfig.mk (gs "a") (gs "b") (gs "c") (gs "d")
        (some ⟨gs "x", gs "y"⟩)).pathMapping = some pm →
      containsSub [58] (List.getD (goSplitN 124 5 (gs "a|b|c|d|x:y")) 4 []) = true ∧
      pm.From = (goCut [58] (List.getD (goSplitN 124 5 (gs "a|b|c|d|x:y")) 4 [])).1 ∧
      pm.To = (goCut [58] (List.getD (goSplitN 124 5 (gs "a|b|c|d|x:y")) 4 [])).2.1) :=
  parseToken_pathMapping_iff (gs "a|b|c|d|x:y") _ (by decide)

/-! ### ComputeSafeBytes (spec §4.3; exercised by src/unnamed/part_002 tests) -/

/-- Modelled from the spec: `computeSafeBytes` itself is not under `src/`
(only the repository's test file calls it); this is the loop of the spec's
`ComputeSafeBytes` pseudocode, fuel-based so the kernel can evaluate it.  The
fuel `lastPiece + 1 - p` always suffices: when it runs out, `p > lastPiece`
and the loop would have stopped anyway. -/
def safeLoopAux (fuel : Nat) (fileOffset pieceSize : Int) (states : List Int)
    (lastPiece p : Nat) (safe : Int) : Int :=
  match fuel with
  | 0 => safe
  | Nat.succ fuel' =>
    if p > lastPiece then safe
    else if p ≥ List.length states ∨ List.getD states p 0 ≠ 2 then safe
    else
      safeLoopAux fuel' fileOffset pieceSize states lastPiece (p + 1)
        (if ((p : Int) + 1) * pieceSize - fileOffset > safe then
          ((p : Int) + 1) * pieceSize - fileOffset
        else safe)

/-- The trailing clamp of `ComputeSafeBytes`: cap at `fileSize`, floor at 0. -/
def clampSafe (fileSize safe : Int) : Int :=
  if (if safe > fileSize then fileSize else safe) < 0 then 0
  else (if safe > fileSize then fileSize else safe)

/-- Modelled from the spec: `ComputeSafeBytes(fileOffset, fileSize, pieceSize,
states, firstPiece, lastPiece)` (spec §4.3), cross-checked against the tests
in `src/unnamed/part_002`. -/
def computeSafeBytes (fileOffset fileSize pieceSize : Int) (states : List Int)
    (firstPiece lastPiece : Nat) : Int :=
  if pieceSize ≤ 0 then 0
  else if firstPiece ≥ List.length states then 0
  else clampSafe fileSize
    (safeLoopAux (lastPiece + 1 - firstPiece) fileOffset pieceSize states lastPiece firstPiece 0)

example : computeSafeBytes 0 5000 1000 [2, 2, 2, 2, 2] 0 4 = 5000 := by decide
example : computeSafeBytes 0 5000 1000 [0, 0, 0, 0, 0] 0 4 = 0 := by decide
example : computeSafeBytes 0 5000 1000 [2, 2, 2, 0, 0] 0 4 = 3000 := by decide
example : computeSafeBytes 0 5000 1000 [2, 0, 0, 0, 2] 0 4 = 1000 := by decide
example : computeSafeBytes 1500 3000 1000 [2, 2, 2, 0, 2] 1 4 = 1500 := by decide
example : computeSafeBytes 0 2000 0 [2, 2] 0 1 = 0 := by decide
example : computeSafeBytes 0 2000 1000 [2, 2] 5 6 = 0 := by decide
example : computeSafeBytes 2000 800 1000 [0, 0, 2, 0] 2 2 = 800 := by decide
example : computeSafeBytes 0 500 1000 [2, 2] 0 1 = 500 := by decide
example : computeSafeBytes 0 5000 1000 ([] : List Int) 0 4 = 0 := by decide

theorem le_safeLoopAux (fuel : Nat) (off ps : Int) (states : List Int)
    (last p : Nat) (safe : Int) :
    safe ≤ safeLoopAux fuel off ps states last p safe := by
  induction fuel generalizing p safe with
  | zero => exact le_refl _
  | succ fuel ih =>
    simp only [safeLoopAux]
    split
    · exact le_refl _
    split
    · exact le_refl _
    refine le_trans ?_ (ih (p + 1) _)
    split
    · rename_i hgt
      exact le_of_lt hgt
    · exact le_refl _

theorem getD_eq_two_of_all (states : List Int) (hall : ∀ s ∈ states, s = 2)
    (q : Nat) (hq : q < List.length states) : List.getD states q 0 = 2 := by
  rw [List.getD_eq_getElem states 0 hq]
  exact hall _ (List.getElem_mem hq)

theorem safeLoopAux_ge_end (fuel : Nat) (off ps : Int) (states : List Int)
    (last p : Nat) (safe : Int)
    (hfuel : last + 1 - p ≤ fuel) (hple : p ≤ last)
    (hall : ∀ q, p ≤ q → q ≤ last → (q < List.length states ∧ List.getD states q 0 = 2)) :
    ((last : Int) + 1) * ps - off ≤ safeLoopAux fuel off ps states last p safe := by
  induction fuel generalizing p safe with
  | zero => omega
  | succ fuel ih =>
    simp only [safeLoopAux]
    rw [if_neg (by omega)]
    obtain ⟨hlen, hdl⟩ := hall p le_rfl hple
    rw [if_neg (by push_neg; exact ⟨by omega, hdl⟩)]
    by_cases hp : p = last
    · subst hp
      refine le_trans ?_ (le_safeLoopAux fuel off ps states p (p + 1) _)
      split
      · exact le_refl _
      · rename_i hle
        exact le_of_not_lt hle
    · exact ih (p + 1) _ (by omega) (by omega) (fun q hq1 hq2 => hall q (by omega) hq2)

theorem clampSafe_of_ge (fileSize safe : Int) (h1 : fileSize ≤ safe) (h2 : 0 ≤ fileSize) :
    clampSafe fileSize safe = fileSize := by
  unfold clampSafe
  split_ifs <;> omega

theorem clampSafe_zero (fileSize : Int) : clampSafe fileSize 0 = 0 := by
  unfold clampSafe
  split_ifs <;> omega

theorem safeLoopAux_break (fuel : Nat) (off ps : Int) (states : List Int)
    (last p : Nat) (h : List.getD states p 0 ≠ 2) :
    safeLoopAux fuel off ps states last p 0 = 0 := by
  cases fuel with
  | zero => rfl
  | succ fuel =>
    simp only [safeLoopAux]
    split
    · rfl
    rw [if_pos (Or.inr h)]

theorem mono_safeLoopAux (fuel : Nat) (off ps : Int) (states states' : List Int)
    (last : Nat) (hlen : List.length states = List.length states')
    (hmono : ∀ i, i < List.length states →
      List.getD states i 0 = 2 → List.getD states' i 0 = 2) :
    ∀ (p : Nat) (acc acc' : Int), acc ≤ acc' →
      safeLoopAux fuel off ps states last p acc ≤ safeLoopAux fuel off ps states' last p acc' := by
  induction fuel with
  | zero => intro p acc acc' hacc; exact hacc
  | succ fuel ih =>
    intro p acc acc' hacc
    by_cases h1 : p > last
    · simp only [safeLoopAux]
      rw [if_pos h1, if_pos h1]
      exact hacc
    by_cases h2 : p ≥ List.length states ∨ List.getD states p 0 ≠ 2
    · have hL : safeLoopAux (fuel + 1) off ps states last p acc = acc := by
        simp only [safeLoopAux]
        rw [if_neg h1, if_pos h2]
      rw [hL]
      exact le_trans hacc (le_safeLoopAux _ _ _ _ _ _ _)
    · push_neg at h2
      have h2' : ¬(p ≥ List.length states' ∨ List.getD states' p 0 ≠ 2) := by
        push_neg
        exact ⟨by omega, hmono p (by omega) h2.2⟩
      simp only [safeLoopAux]
      rw [if_neg h1, if_neg h1,
          if_neg (by push_neg; exact ⟨h2.1, h2.2⟩), if_neg h2']
      apply ih (p + 1)
      split <;> split <;> rename_i ha hb
      · exact le_refl _
      · exact le_of_not_lt hb
      · exact le_trans hacc (le_of_lt hb)
      · exact hacc

theorem mono_clampSafe (fileSize s s' : Int) (h : s ≤ s') :
    clampSafe fileSize s ≤ clampSafe fileSize s' := by
  unfold clampSafe
  split_ifs <;> omega

/-- C1: for `computeSafeBytes` — (a) when every piece covering the file is
Downloaded the result equals `fileSize` (the piece-end computation is clamped
down to `fileSize`); (b) when the file's first piece is not Downloaded the
result is 0; (c) the result is monotone non-decreasing as additional pieces
change to Downloaded. -/
theorem computeSafeBytes_spec :
    (∀ (fileOffset fileSize pieceSize : Int) (states : List Int) (firstPiece lastPiece : Nat),
      0 < pieceSize → firstPiece ≤ lastPiece → lastPiece < List.length states →
      (∀ s ∈ states, s = 2) → 0 ≤ fileSize →
      fileSize ≤ ((lastPiece : Int) + 1) * pieceSize - fileOffset →
      computeSafeBytes fileOffset fileSize pieceSize states firstPiece lastPiece = fileSize) ∧
    (∀ (fileOffset fileSize pieceSize : Int) (states : List Int) (firstPiece lastPiece : Nat),
      List.getD states firstPiece 0 ≠ 2 →
      computeSafeBytes fileOffset fileSize pieceSize states firstPiece lastPiece = 0) ∧
    (∀ (fileOffset fileSize pieceSize : Int) (states states' : List Int)
      (firstPiece lastPiece : Nat),
      List.length states = List.length states' →
      (∀ i, i < List.length states →
        List.getD states i 0 = 2 → List.getD states' i 0 = 2) →
      computeSafeBytes fileOffset fileSize pieceSize states firstPiece lastPiece ≤
        computeSafeBytes fileOffset fileSize pieceSize states' firstPiece lastPiece) := by
  refine ⟨?_, ?_, ?_⟩
  · intro off fs ps states first last hps hfl hlast hall hfs0 hfscov
    unfold computeSafeBytes
    rw [if_neg (by omega), if_neg (by omega)]
    refine clampSafe_of_ge fs _ ?_ hfs0
    refine le_trans hfscov ?_
    exact safeLoopAux_ge_end (last + 1 - first) off ps states last first 0 le_rfl hfl
      (fun q hq1 hq2 => ⟨by omega, getD_eq_two_of_all states hall q (by omega)⟩)
  · intro off fs ps states first last hnd
    unfold computeSafeBytes
    split
    · rfl
    split
    · rfl
    rw [safeLoopAux_break _ _ _ _ _ _ hnd, clampSafe_zero]
  · intro off fs ps states states' first last hlen hmono
    unfold computeSafeBytes
    by_cases hps : ps ≤ 0
    · rw [if_pos hps, if_pos hps]
    · rw [if_neg hps, if_neg hps]
      by_cases hfst : first ≥ List.length states
      · rw [if_pos hfst, if_pos (by omega)]
      · rw [if_neg hfst, if_neg (by omega)]
        exact mono_clampSafe _ _ _
          (mono_safeLoopAux _ off ps states states' last hlen hmono first 0 0 (le_refl 0))

/-- Witness for C1 at the test inputs of `src/unnamed/part_002`. -/
theorem computeSafeBytes_spec_witness :
    computeSafeBytes 0 5000 1000 [2, 2, 2, 2, 2] 0 4 = 5000 ∧
    computeSafeBytes 0 5000 1000 [0, 2, 2, 2, 2] 0 4 = 0 ∧
    computeSafeBytes 0 5000 1000 [2, 2, 0, 0, 0] 0 4 ≤
      computeSafeBytes 0 5000 1000 [2, 2, 2, 0, 0] 0 4 :=
  ⟨computeSafeBytes_spec.1 0 5000 1000 [2, 2, 2, 2, 2] 0 4 (by decide) (by decide)
      (by decide) (by decide) (by decide) (by decide),
   computeSafeBytes_spec.2.1 0 5000 1000 [0, 2, 2, 2, 2] 0 4 (by decide),
   computeSafeBytes_spec.2.2 0 5000 1000 [2, 2, 0, 0, 0] [2, 2, 2, 0, 0] 0 4
      (by decide) (by decide)⟩

/-! ### Piece-level range availability (store/qbittorrent/store.go
IsFileRangeAvailable, lines 179-215; checkRangeAvailable in the tests) -/

/-- The piece-check loop of `IsFileRangeAvailable` (`for p := firstNeeded;
p <= lastNeeded; p++ { if p >= len(states) || states[p] != 2 { return false } }`),
fuel-based.  Go indexes `states[p]` with an `int`; on the non-negative inputs
the function is used with `p` is never negative (this model returns `false`
there). -/
def rangeLoopAux (fuel : Nat) (states : List Int) (p lastNeeded : Int) : Bool :=
  match fuel with
  | 0 => true
  | Nat.succ fuel' =>
    if p > lastNeeded then true
    else if p < 0 then false
    else if p ≥ (List.length states : Int) ∨ List.getD states p.toNat 0 ≠ 2 then false
    else rangeLoopAux fuel' states (p + 1) lastNeeded

/-- `if lastNeeded > lp { lastNeeded = lp }` from `IsFileRangeAvailable`. -/
def clampLastNeeded (lastPiece : Nat) (ln : Int) : Int :=
  if ln > (lastPiece : Int) then (lastPiece : Int) else ln

/-- The pure core of `IsFileRangeAvailable` (`checkRangeAvailable` in the
tests): truncating byte-to-piece division, `lastNeeded` clamped to the file's
last piece, every needed piece must be in state 2. -/
def checkRangeAvailable (fileOffset pieceSize : Int) (states : List Int)
    (lastPiece : Nat) (rangeStart rangeEnd : Int) : Bool :=
  if pieceSize ≤ 0 then false
  else if lastPiece ≥ List.length states then false
  else
    rangeLoopAux
      ((clampLastNeeded lastPiece ((fileOffset + rangeEnd).tdiv pieceSize) + 1 -
        (fileOffset + rangeStart).tdiv pieceSize).toNat)
      states
      ((fileOffset + rangeStart).tdiv pieceSize)
      (clampLastNeeded lastPiece ((fileOffset + rangeEnd).tdiv pieceSize))

example : checkRangeAvailable 0 1000 [2, 2, 2, 2, 2] 4 0 4999 = true := by decide
example : checkRangeAvailable 0 1000 [0, 0, 0, 0, 0] 4 0 999 = false := by decide
example : checkRangeAvailable 0 1000 [0, 0, 2, 0, 0] 4 2000 2999 = true := by decide
example : checkRangeAvailable 0 1000 [2, 2, 2, 0, 0] 4 1000 2999 = true := by decide
example : checkRangeAvailable 0 1000 [2, 2, 2, 0, 0] 4 2000 3999 = false := by decide
example : checkRangeAvailable 0 1000 [2, 0, 0, 0, 2] 4 4000 4999 = true := by decide
example : checkRangeAvailable 0 1000 [2, 0, 0, 0, 2] 4 3000 4999 = false := by decide
example : checkRangeAvailable 500 1000 [2, 0, 2] 2 0 499 = true := by decide
example : checkRangeAvailable 500 1000 [2, 0, 2] 2 500 999 = false := by decide
example : checkRangeAvailable 0 1000 [2, 2, 2] 2 0 5999 = true := by decide
example : checkRangeAvailable 0 0 [2, 2] 1 0 100 = false := by decide
example : checkRangeAvailable 0 1000 [2, 2] 5 0 5999 = false := by decide

theorem rangeLoopAux_true_of_all (states : List Int) :
    ∀ (fuel : Nat) (p l : Int), 0 ≤ p →
      (∀ q : Int, p ≤ q → q ≤ l →
        (q < (List.length states : Int) ∧ List.getD states q.toNat 0 = 2)) →
      rangeLoopAux fuel states p l = true := by
  intro fuel
  induction fuel with
  | zero => intro p l _ _; rfl
  | succ fuel ih =>
    intro p l hp hall
    simp only [rangeLoopAux]
    by_cases h1 : p > l
    · rw [if_pos h1]
    rw [if_neg h1, if_neg (by omega)]
    obtain ⟨hlt, hdl⟩ := hall p le_rfl (by omega)
    rw [if_neg (by push_neg; exact ⟨by omega, hdl⟩)]
    exact ih (p + 1) l (by omega) (fun q hq1 hq2 => hall q (by omega) hq2)

theorem rangeLoopAux_false_of_bad (states : List Int) :
    ∀ (fuel : Nat) (p l q : Int), p ≤ q → q ≤ l → 0 ≤ p →
      List.getD states q.toNat 0 ≠ 2 →
      (l + 1 - p).toNat ≤ fuel →
      rangeLoopAux fuel states p l = false := by
  intro fuel
  induction fuel with
  | zero => intro p l q h1 h2 h3 _ hf; omega
  | succ fuel ih =>
    intro p l q h1 h2 h3 hbad hf
    simp only [rangeLoopAux]
    rw [if_neg (by omega), if_neg (by omega)]
    by_cases hpb : p ≥ (List.length states : Int) ∨ List.getD states p.toNat 0 ≠ 2
    · rw [if_pos hpb]
    · rw [if_neg hpb]
      push_neg at hpb
      have hqp : p ≠ q := by
        intro he
        subst he
        exact hbad hpb.2
      exact ih (p + 1) l q (by omega) h2 (by omega) hbad (by omega)

theorem clampLastNeeded_le (lp : Nat) (ln : Int) : clampLastNeeded lp ln ≤ (lp : Int) := by
  unfold clampLastNeeded
  split <;> omega

theorem clampLastNeeded_of_ge (lp : Nat) (ln : Int) (h : (lp : Int) ≤ ln) :
    clampLastNeeded lp ln = (lp : Int) := by
  unfold clampLastNeeded
  split <;> omega

theorem tdiv_nonneg' (a b : Int) (ha : 0 ≤ a) (hb : 0 ≤ b) : 0 ≤ a.tdiv b := by
  obtain ⟨m, rfl⟩ := Int.eq_ofNat_of_zero_le ha
  obtain ⟨n, rfl⟩ := Int.eq_ofNat_of_zero_le hb
  exact Int.ofNat_nonneg _

/-- C2: for the piece-level range-availability check — (a) with every piece
Downloaded it returns true for any non-negative range; (b) it returns false
whenever some needed piece (after clamping) is not Downloaded; (c) the last
needed piece index is clamped to the file's `lastPiece`, so two range ends
both mapping at or past `lastPiece` are interchangeable. -/
theorem checkRangeAvailable_spec :
    (∀ (fileOffset pieceSize : Int) (states : List Int) (lastPiece : Nat)
       (rangeStart rangeEnd : Int),
      0 < pieceSize → lastPiece < List.length states → (∀ s ∈ states, s = 2) →
      0 ≤ fileOffset + rangeStart → 0 ≤ fileOffset + rangeEnd →
      checkRangeAvailable fileOffset pieceSize states lastPiece rangeStart rangeEnd = true) ∧
    (∀ (fileOffset pieceSize : Int) (states : List Int) (lastPiece : Nat)
       (rangeStart rangeEnd q : Int),
      0 ≤ fileOffset + rangeStart →
      (fileOffset + rangeStart).tdiv pieceSize ≤ q →
      q ≤ clampLastNeeded lastPiece ((fileOffset + rangeEnd).tdiv pieceSize) →
      List.getD states q.toNat 0 ≠ 2 →
      checkRangeAvailable fileOffset pieceSize states lastPiece rangeStart rangeEnd = false) ∧
    (∀ (fileOffset pieceSize : Int) (states : List Int) (lastPiece : Nat)
       (rangeStart rangeEnd rangeEnd' : Int),
      (lastPiece : Int) ≤ (fileOffset + rangeEnd).tdiv pieceSize →
      (lastPiece : Int) ≤ (fileOffset + rangeEnd').tdiv pieceSize →
      checkRangeAvailable fileOffset pieceSize states lastPiece rangeStart rangeEnd =
        checkRangeAvailable fileOffset pieceSize states lastPiece rangeStart rangeEnd') := by
  refine ⟨?_, ?_, ?_⟩
  · intro off ps states lp rs re hps hlp hall h0s h0e
    unfold checkRangeAvailable
    rw [if_neg (by omega), if_neg (by omega)]
    refine rangeLoopAux_true_of_all states _ _ _ (tdiv_nonneg' _ _ h0s (by omega)) ?_
    intro q hq1 hq2
    have hle := clampLastNeeded_le lp ((off + re).tdiv ps)
    have hq0 : 0 ≤ q := le_trans (tdiv_nonneg' _ _ h0s (by omega)) hq1
    refine ⟨by omega, ?_⟩
    exact getD_eq_two_of_all states hall q.toNat (by omega)
  · intro off ps states lp rs re q h0s hq1 hq2 hbad
    unfold checkRangeAvailable
    split
    · rfl
    split
    · rfl
    rename_i hps hlp
    exact rangeLoopAux_false_of_bad states _ _ _ q hq1 hq2
      (tdiv_nonneg' _ _ h0s (by omega)) hbad (by omega)
  · intro off ps states lp rs re re' hge hge'
    unfold checkRangeAvailable
    by_cases hps : ps ≤ 0
    · rw [if_pos hps, if_pos hps]
    rw [if_neg hps, if_neg hps]
    by_cases hlp : lp ≥ List.length states
    · rw [if_pos hlp, if_pos hlp]
    rw [if_neg hlp, if_neg hlp,
        clampLastNeeded_of_ge lp _ hge, clampLastNeeded_of_ge lp _ hge']

/-- Witness for C2 at test inputs of `src/unnamed/part_002`. -/
theorem checkRangeAvailable_spec_witness :
    checkRangeAvailable 0 1000 [2, 2, 2, 2, 2] 4 0 4999 = true ∧
    checkRangeAvailable 0 1000 [2, 2, 2, 0, 0] 4 2000 3999 = false ∧
    checkRangeAvailable 0 1000 [2, 2, 2] 2 0 5999 =
      checkRangeAvailable 0 1000 [2, 2, 2] 2 0 2999 :=
  ⟨checkRangeAvailable_spec.1 0 1000 [2, 2, 2, 2, 2] 4 0 4999 (by decide) (by decide)
      (by decide) (by decide) (by decide),
   checkRangeAvailable_spec.2.1 0 1000 [2, 2, 2, 0, 0] 4 2000 3999 3 (by decide)
      (by decide) (by decide) (by decide),
   checkRangeAvailable_spec.2.2 0 1000 [2, 2, 2] 2 0 5999 2999 (by decide) (by decide)⟩

/-! ### Paced proxy Range phase (internal/shared/http_paced.go) -/

/-- One result of `SafeBytesFunc`: `(safeBytes, fileSize, done)`. -/
structure PollResult where
  safeBytes : Int
  fileSize : Int
  done : Bool
deriving DecidableEq, Repr

/-- `parseByteRange` from `http_paced.go`: `bytes=START-END`, first range
only, suffix ranges (`bytes=-N`) unsupported, `END = -1` when open-ended. -/
def parseByteRange (rangeHeader : GoStr) : Option (Int × Int) :=
  if goStartsWith (gs "bytes=") rangeHeader then
    if goStartsWith [45] ((goCut [44] (goTrimPre (gs "bytes=") rangeHeader)).1) then none
    else
      match goAtoi (List.getD
          (goSplitN 45 2 ((goCut [44] (goTrimPre (gs "bytes=") rangeHeader)).1)) 0 []) with
      | none => none
      | some s =>
        if List.length (goSplitN 45 2 ((goCut [44] (goTrimPre (gs "bytes=") rangeHeader)).1)) = 2 ∧
            List.getD (goSplitN 45 2 ((goCut [44] (goTrimPre (gs "bytes=") rangeHeader)).1)) 1 [] ≠ [] then
          match goAtoi (List.getD
              (goSplitN 45 2 ((goCut [44] (goTrimPre (gs "bytes=") rangeHeader)).1)) 1 []) with
          | none => none
          | some e => some (s, e)
        else some (s, -1)
  else none

example : parseByteRange (gs "bytes=0-0") = some (0, 0) := by decide
example : parseByteRange (gs "bytes=100-") = some (100, -1) := by decide
example : parseByteRange (gs "bytes=-500") = none := by decide
example : parseByteRange (gs "") = none := by decide
example : parseByteRange (gs "bytes=0-499,600-999") = some (0, 499) := by decide

/-- `progressStallTimeout / 2s`: the maximum number of sleep-and-poll
iterations of the catch-up loop before the 120-second stall deadline. -/
def stallPollBudget : Nat := 120 / 2

/-- The catch-up loop of `proxyResponsePaced` (lines 151-155): while
`start >= safeBytes && !done` and the deadline has not passed, sleep 2 s and
call `safeBytesFn` again.  `polls i` is the result of the i-th call of
`safeBytesFn` (poll 0 is the initial call made before the loop). -/
def pollLoop (start : Int) (polls : Nat → PollResult) (i fuel : Nat)
    (cur : PollResult) : PollResult :=
  match fuel with
  | 0 => cur
  | Nat.succ fuel' =>
    if start ≥ cur.safeBytes ∧ cur.done = false then
      pollLoop start polls (i + 1) fuel' (polls i)
    else cur

/-- Outcome of the Range-handling phase of `proxyResponsePaced`. -/
inductive RangeDecision where
  | proceed (rangeVerified : Bool)
  | notSatisfiable (fileSize : Int)
deriving DecidableEq, Repr

/-- The Range-handling phase of `proxyResponsePaced` (lines 129-164): when
the Range start is at or past the frontier and the download is not done, try
the piece-level availability check; failing that, poll until the frontier
moves past `start`, the download finishes, or the stall deadline passes —
in which case answer 416. -/
def proxyRangePhase (rangeHeader : GoStr) (polls : Nat → PollResult)
    (rangeAvail : Int → Int → Bool) : RangeDecision :=
  if rangeHeader = [] then .proceed false
  else
    match parseByteRange rangeHeader with
    | none => .proceed false
    | some (start, endv) =>
      if start ≥ (polls 0).safeBytes ∧ (polls 0).done = false then
        if rangeAvail start (if endv < 0 then (polls 0).fileSize - 1 else endv) then
          .proceed true
        else
          if start ≥ (pollLoop start polls 1 stallPollBudget (polls 0)).safeBytes ∧
              (pollLoop start polls 1 stallPollBudget (polls 0)).done = false then
            .notSatisfiable (pollLoop start polls 1 stallPollBudget (polls 0)).fileSize
          else .proceed false
      else .proceed false

/-- The 416 answer written by lines 156-159 of `http_paced.go`: status 416,
`Content-Range: bytes */<fileSize>`, and no body bytes (the function returns
`(0, nil)` before any body copy). -/
structure NotSatisfiableResponse where
  status : Nat
  contentRange : GoStr
  bytesWritten : Int
deriving DecidableEq, Repr

/-- The response built for the `.notSatisfiable` decision. -/
def paced416Response (fileSize : Int) : NotSatisfiableResponse :=
  { status := 416, contentRange := gs "bytes */" ++ goFormatInt fileSize, bytesWritten := 0 }

theorem pollLoop_all_behind (start : Int) (polls : Nat → PollResult) :
    ∀ (fuel i : Nat) (cur : PollResult), fuel ≠ 0 →
    start ≥ cur.safeBytes → cur.done = false →
    (∀ j, i ≤ j → j + 1 ≤ i + fuel →
      start ≥ (polls j).safeBytes ∧ (polls j).done = false) →
    pollLoop start polls i fuel cur = polls (i + fuel - 1) := by
  intro fuel
  induction fuel with
  | zero => intro i cur h; exact absurd rfl h
  | succ fuel ih =>
    intro i cur _ hsafe hdone hall
    simp only [pollLoop]
    rw [if_pos ⟨hsafe, hdone⟩]
    cases fuel with
    | zero => simp [pollLoop]
    | succ fuel' =>
      have hi := hall i le_rfl (by omega)
      rw [ih (i + 1) (polls i) (by omega) hi.1 hi.2
        (fun j hj1 hj2 => hall j (by omega) (by omega))]
      congr 1
      omega

/-- C3: with a `Range: bytes=START-...` whose START stays at or past the
safe-byte frontier through every poll, the download never done, and the range
not piece-verified, the paced proxy polls up to the stall budget
(120 s / 2 s) and answers 416 with `Content-Range: bytes */<fileSize>`
(the file size of the last poll) and zero body bytes. -/
theorem proxyResponsePaced_416 (rangeHeader : GoStr) (polls : Nat → PollResult)
    (rangeAvail : Int → Int → Bool) (start endv : Int)
    (hparse : parseByteRange rangeHeader = some (start, endv))
    (hbehind : ∀ i, i ≤ stallPollBudget →
      start ≥ (polls i).safeBytes ∧ (polls i).done = false)
    (havail : rangeAvail start (if endv < 0 then (polls 0).fileSize - 1 else endv) = false) :
    proxyRangePhase rangeHeader polls rangeAvail =
      RangeDecision.notSatisfiable ((polls stallPollBudget).fileSize) ∧
    paced416Response ((polls stallPollBudget).fileSize) =
      { status := 416,
        contentRange := gs "bytes */" ++ goFormatInt ((polls stallPollBudget).fileSize),
        bytesWritten := 0 } := by
  have hne : rangeHeader ≠ [] := by
    intro he
    subst he
    simp [parseByteRange, goStartsWith, List.isPrefixOf, gs] at hparse
  have hloop : pollLoop start polls 1 stallPollBudget (polls 0) = polls stallPollBudget := by
    rw [pollLoop_all_behind start polls stallPollBudget 1 (polls 0) (by decide)
      (hbehind 0 (by omega)).1 (hbehind 0 (by omega)).2
      (fun j hj1 hj2 => hbehind j (by omega))]
    congr 1
  refine ⟨?_, rfl⟩
  unfold proxyRangePhase
  rw [if_neg hne, hparse]
  simp only []
  rw [if_pos (hbehind 0 (by omega)), if_neg (by rw [havail]; exact Bool.false_ne_true), hloop,
      if_pos (hbehind stallPollBudget le_rfl)]

/-- Witness for C3: constant frontier 0, file size 1000, range start 500. -/
theorem proxyResponsePaced_416_witness :
    proxyRangePhase (gs "bytes=500-") (fun _ => ⟨0, 1000, false⟩) (fun _ _ => false) =
      RangeDecision.notSatisfiable 1000 ∧
    paced416Response 1000 =
      { status := 416, contentRange := gs "bytes */" ++ goFormatInt 1000, bytesWritten := 0 } :=
  proxyResponsePaced_416 (gs "bytes=500-") (fun _ => ⟨0, 1000, false⟩) (fun _ _ => false)
    500 (-1) (by decide) (fun i _ => ⟨by simp, rfl⟩) (by decide)

/-! ### qBittorrent session table and retry-on-403 (store/qbittorrent/client.go) -/

/-- `sessionEntry`: the logged-in HTTP client is abstracted to an id;
`expires` is the wall-clock expiry in minutes. -/
structure SessionEntry where
  clientId : Nat
  expires : Nat
deriving DecidableEq, Repr

/-- The session table (`sync.Map` keyed by `url|username`). -/
abbrev Sessions := List (GoStr × SessionEntry)

/-- `sessions.Load`. -/
def sessionsLoad (ss : Sessions) (key : GoStr) : Option SessionEntry :=
  match ss with
  | [] => none
  | (k, e) :: rest => if k = key then some e else sessionsLoad rest key

/-- `sessions.Store` (last write shadows previous entries for the key). -/
def sessionsStore (ss : Sessions) (key : GoStr) (e : SessionEntry) : Sessions :=
  (key, e) :: ss

/-- `sessions.Delete`. -/
def sessionsDelete (ss : Sessions) (key : GoStr) : Sessions :=
  match ss with
  | [] => []
  | (k, e) :: rest =>
    if k = key then sessionsDelete rest key else (k, e) :: sessionsDelete rest key

/-- `sessionKey`: `cfg.URL + "|" + cfg.Username`. -/
def sessionKey (cfg : QbitConfig) : GoStr := cfg.url ++ 124 :: cfg.username

/-- The 55-minute session lifetime, in minutes. -/
def sessionValidMinutes : Nat := 55

/-- `login`: on upstream success (`loginOk = some clientId`) store a fresh
entry expiring 55 minutes from now; on failure return the error and leave the
table untouched. -/
def qbitLogin (ss : Sessions) (cfg : QbitConfig) (now : Nat) (loginOk : Option Nat) :
    Option Nat × Sessions :=
  match loginOk with
  | none => (none, ss)
  | some cid =>
    (some cid, sessionsStore ss (sessionKey cfg) ⟨cid, now + sessionValidMinutes⟩)

/-- `getOrCreateSession`: reuse the cached client while `now < expires`,
otherwise perform a login.  The extra boolean reports whether a login was
performed. -/
def getOrCreateSession (ss : Sessions) (cfg : QbitConfig) (now : Nat)
    (loginOk : Option Nat) : (Option Nat × Sessions) × Bool :=
  match sessionsLoad ss (sessionKey cfg) with
  | some se =>
    if now < se.expires then ((some se.clientId, ss), false)
    else (qbitLogin ss cfg now loginOk, true)
  | none => (qbitLogin ss cfg now loginOk, true)

/-- Observable outcome of `doRequest`: the returned status (`none` models a
login/transport error), the final session table, the number of upstream
responses received, and whether the retry performed a fresh login. -/
structure DoRequestTrace where
  result : Option Nat
  sessions : Sessions
  requests : Nat
  retryLoggedIn : Bool
deriving DecidableEq, Repr

/-- `doRequest`'s two-attempt loop: attempt 0 gets a session and performs the
request; a 403 on attempt 0 deletes the session entry and retries exactly
once; attempt 1's response is returned as-is (even a 403).  `logins` feeds
successive login results, `statuses` successive upstream response statuses. -/
def doRequest (ss : Sessions) (cfg : QbitConfig) (now : Nat)
    (logins statuses : List Nat) : DoRequestTrace :=
  match getOrCreateSession ss cfg now (List.head? logins) with
  | ((none, ss0), _) => ⟨none, ss0, 0, false⟩
  | ((some _, ss0), didLogin0) =>
    match List.head? statuses with
    | none => ⟨none, ss0, 1, false⟩
    | some s0 =>
      if s0 = 403 then
        match getOrCreateSession (sessionsDelete ss0 (sessionKey cfg)) cfg now
            (List.head? (if didLogin0 then List.tail logins else logins)) with
        | ((none, ss2), _) => ⟨none, ss2, 1, false⟩
        | ((some _, ss2), didLogin1) =>
          match List.head? (List.tail statuses) with
          | none => ⟨none, ss2, 1, didLogin1⟩
          | some s1 => ⟨some s1, ss2, 2, didLogin1⟩
      else ⟨some s0, ss0, 1, false⟩

theorem sessionsLoad_delete (ss : Sessions) (key : GoStr) :
    sessionsLoad (sessionsDelete ss key) key = none := by
  induction ss with
  | nil => rfl
  | cons p rest ih =>
    obtain ⟨k, e⟩ := p
    simp only [sessionsDelete]
    by_cases hk : k = key
    · rw [if_pos hk]
      exact ih
    · rw [if_neg hk]
      simp only [sessionsLoad, if_neg hk]
      exact ih

/-- C8: (a) a cached session is reused (no login) only when `now` is before
its expiry; (b) a login stores an entry valid for exactly 55 minutes from
login; (c) a 403 on the first attempt deletes the `(url, username)` entry and
the request is retried exactly once with a freshly logged-in session, a 403
on the retry being returned to the caller with no further retries. -/
theorem qbitSession_spec :
    (∀ (ss : Sessions) (cfg : QbitConfig) (now : Nat) (lo : Option Nat)
       (cid : Nat) (ss' : Sessions),
      getOrCreateSession ss cfg now lo = ((some cid, ss'), false) →
      ∃ se, sessionsLoad ss (sessionKey cfg) = some se ∧ se.clientId = cid ∧
        now < se.expires ∧ ss' = ss) ∧
    (∀ (ss : Sessions) (cfg : QbitConfig) (now : Nat) (cid : Nat)
       (res : Option Nat × Sessions),
      getOrCreateSession ss cfg now (some cid) = (res, true) →
      res = (some cid,
        sessionsStore ss (sessionKey cfg) ⟨cid, now + sessionValidMinutes⟩)) ∧
    (∀ (ss : Sessions) (cfg : QbitConfig) (now : Nat) (l0 : Nat) (restL : List Nat)
       (s1 : Nat) (restS : List Nat) (se : SessionEntry),
      sessionsLoad ss (sessionKey cfg) = some se → now < se.expires →
      doRequest ss cfg now (l0 :: restL) (403 :: s1 :: restS) =
        ⟨some s1,
         sessionsStore (sessionsDelete ss (sessionKey cfg)) (sessionKey cfg)
           ⟨l0, now + sessionValidMinutes⟩,
         2, true⟩) := by
  refine ⟨?_, ?_, ?_⟩
  · intro ss cfg now lo cid ss' h
    cases hload : sessionsLoad ss (sessionKey cfg) with
    | none =>
      simp only [getOrCreateSession, hload] at h
      exact absurd (congrArg Prod.snd h) (by simp)
    | some se =>
      simp only [getOrCreateSession, hload] at h
      by_cases hnow : now < se.expires
      · rw [if_pos hnow] at h
        refine ⟨se, rfl, ?_, hnow, ?_⟩
        · have := congrArg (fun x => x.1.1) h
          simpa using this
        · have := congrArg (fun x => x.1.2) h
          simp at this
          exact this.symm
      · rw [if_neg hnow] at h
        exact absurd (congrArg Prod.snd h) (by simp)
  · intro ss cfg now cid res h
    cases hload : sessionsLoad ss (sessionKey cfg) with
    | none =>
      simp only [getOrCreateSession, hload] at h
      have := congrArg Prod.fst h
      simp only [qbitLogin] at this
      exact this.symm
    | some se =>
      simp only [getOrCreateSession, hload] at h
      by_cases hnow : now < se.expires
      · rw [if_pos hnow] at h
        exact absurd (congrArg Prod.snd h) (by simp)
      · rw [if_neg hnow] at h
        have := congrArg Prod.fst h
        simp only [qbitLogin] at this
        exact this.symm
  · intro ss cfg now l0 restL s1 restS se hload hnow
    have h0 : getOrCreateSession ss cfg now (some l0) =
        ((some se.clientId, ss), false) := by
      simp only [getOrCreateSession, hload]
      rw [if_pos hnow]
    have h1 : getOrCreateSession (sessionsDelete ss (sessionKey cfg)) cfg now
        (some l0) =
        ((some l0, sessionsStore (sessionsDelete ss (sessionKey cfg)) (sessionKey cfg)
          ⟨l0, now + sessionValidMinutes⟩), true) := by
      simp only [getOrCreateSession, sessionsLoad_delete]
      rfl
    simp [doRequest, h0, h1]

/-- Witness for C8 at a concrete session table and trace. -/
theorem qbitSession_spec_witness :
    doRequest [(sessionKey (QbitConfig.mk (gs "http://qb") (gs "admin") (gs "p")
        (gs "http://f") none), ⟨7, 100⟩)]
      (QbitConfig.mk (gs "http://qb") (gs "admin") (gs "p") (gs "http://f") none)
      60 [9] [403, 403] =
      ⟨some 403,
       sessionsStore
         (sessionsDelete [(sessionKey (QbitConfig.mk (gs "http://qb") (gs "admin")
            (gs "p") (gs "http://f") none), ⟨7, 100⟩)]
           (sessionKey (QbitConfig.mk (gs "http://qb") (gs "admin") (gs "p")
            (gs "http://f") none)))
         (sessionKey (QbitConfig.mk (gs "http://qb") (gs "admin") (gs "p")
            (gs "http://f") none))
         ⟨9, 60 + sessionValidMinutes⟩,
       2, true⟩ :=
  qbitSession_spec.2.2
    [(sessionKey (QbitConfig.mk (gs "http://qb") (gs "admin") (gs "p") (gs "http://f") none),
      ⟨7, 100⟩)]
    (QbitConfig.mk (gs "http://qb") (gs "admin") (gs "p") (gs "http://f") none)
    60 9 [] 403 [] ⟨7, 100⟩ (by decide) (by decide)

/-! ### AddMagnet validation (store/qbittorrent/store.go AddMagnet) -/

/-- Dispatch outcome of `AddMagnet`'s input validation. -/
inductive AddMagnetAction where
  | submitMagnet
  | submitTorrent
  | errParseMagnet
  | errParseTorrent
  | errNeither (msg : GoStr)
deriving DecidableEq, Repr

/-- The validation/dispatch head of `AddMagnet` (store.go): a non-empty
`params.Magnet` takes the magnet branch — even when a torrent file is also
set; otherwise a set torrent file takes the torrent branch; otherwise a plain
`fmt.Errorf` error (carrying no `bad_request` status) is returned and nothing
is submitted.  The magnet/torrent parsers (`core.ParseMagnetLink`,
`GetTorrentMeta`, not under `src/`) are abstracted as boolean oracles. -/
def addMagnetAction (magnet : GoStr) (torrentSet parseMagnetOk parseTorrentOk : Bool) :
    AddMagnetAction :=
  if magnet ≠ [] then
    (if parseMagnetOk then .submitMagnet else .errParseMagnet)
  else if torrentSet then
    (if parseTorrentOk then .submitTorrent else .errParseTorrent)
  else .errNeither (gs "either magnet or torrent must be provided")

/-- With both a magnet and a torrent file set, `AddMagnet` does not fail: it
silently submits the magnet. -/
theorem addMagnet_counterexample :
    addMagnetAction (gs "magnet:?xt=urn:btih:abc") true true true =
      AddMagnetAction.submitMagnet := by
  decide

/-- C9 (amended): `AddMagnet` uses the magnet whenever the magnet string is
non-empty — even when a torrent file is also set, with no exclusivity
failure; only when neither is set does it fail, with a plain error (the
generic `fmt.Errorf`, not a `bad_request` store error) and no submission. -/
theorem addMagnet_validation :
    (∀ (magnet : GoStr) (torrentSet parseMagnetOk parseTorrentOk : Bool),
      magnet ≠ [] → parseMagnetOk = true →
      addMagnetAction magnet torrentSet parseMagnetOk parseTorrentOk =
        AddMagnetAction.submitMagnet) ∧
    (∀ (parseMagnetOk parseTorrentOk : Bool),
      addMagnetAction [] false parseMagnetOk parseTorrentOk =
        AddMagnetAction.errNeither (gs "either magnet or torrent must be provided")) := by
  constructor
  · intro magnet torrentSet pm pt hne hpm
    simp [addMagnetAction, hne, hpm]
  · intro pm pt
    simp [addMagnetAction]

/-- Witness for C9 (amended) at concrete inputs. -/
theorem addMagnet_validation_witness :
    addMagnetAction (gs "magnet:?xt=urn:btih:abc") false true true =
      AddMagnetAction.submitMagnet ∧
    addMagnetAction [] false true true =
      AddMagnetAction.errNeither (gs "either magnet or torrent must be provided") :=
  ⟨addMagnet_validation.1 (gs "magnet:?xt=urn:btih:abc") false true true (by decide) rfl,
   addMagnet_validation.2 true true⟩

/-! ### Proxy-link tokens (src/unnamed/part_009: CreateProxyLink,
UnwrapProxyLinkToken, proxyLinkTokenCache) -/

/-- Request headers: Go `map[string]string` modelled as its entry list. -/
abbrev ReqHeaders := List (GoStr × GoStr)

/-- `proxyLinkData` — the base64-JSON record `{u, v, reqh, tunt}`. -/
structure ProxyLinkData where
  user : GoStr
  value : GoStr
  headers : Option ReqHeaders
  tunT : GoStr
deriving DecidableEq, Repr

/-- `ProxyLinkInfo` — the decoded result. -/
structure ProxyLinkInfo where
  user : GoStr
  link : GoStr
  headers : Option ReqHeaders
  tunnelType : GoStr
deriving DecidableEq, Repr

/-- `proxyLinkData.toInfo`. -/
def ProxyLinkData.toInfo (p : ProxyLinkData) : ProxyLinkInfo :=
  ⟨p.user, p.value, p.headers, p.tunT⟩

/-- `proxyLinkTokenData` — the JWT payload `{enc_link, enc_format, tunt}`. -/
structure ProxyLinkTokenData where
  encLink : GoStr
  encFormat : GoStr
  tunT : GoStr
deriving DecidableEq, Repr

/-- The JWT claims carried by a proxy-link token: subject = user, optional
expiry, data. -/
structure JWTClaimsPLD where
  subject : GoStr
  expiresAt : Option Nat
  data : ProxyLinkTokenData
deriving DecidableEq, Repr

/-- Serialized header list: each key and value length-prefixed. -/
def encHeaderList : ReqHeaders → GoStr
  | [] => []
  | (k, v) :: rest => lenStr k ++ (lenStr v ++ encHeaderList rest)

/-- Parse exactly `n` serialized header pairs. -/
def parseHeaderListN : Nat → GoStr → Option (ReqHeaders × GoStr)
  | 0, s => some ([], s)
  | Nat.succ n, s =>
    match parseLenStr s with
    | none => none
    | some (k, s1) =>
      match parseLenStr s1 with
      | none => none
      | some (v, s2) =>
        match parseHeaderListN n s2 with
        | none => none
        | some (hs, s3) => some ((k, v) :: hs, s3)

/-- Serialized optional header map: `0` for nil, else `1`, the count, `#`,
the pairs. -/
def encHeadersOpt : Option ReqHeaders → GoStr
  | none => [48]
  | some hs => 49 :: (natToDec (List.length hs) ++ 35 :: encHeaderList hs)

/-- Inverse of `encHeadersOpt` at the front of a stream. -/
def parseHeadersOpt (s : GoStr) : Option (Option ReqHeaders × GoStr) :=
  match s with
  | 48 :: r => some (none, r)
  | 49 :: r =>
    (match decToNatOpt (List.takeWhile isDigitByte r), List.dropWhile isDigitByte r with
     | some n, 35 :: r2 =>
       (match parseHeaderListN n r2 with
        | none => none
        | some (hs, r3) => some (some hs, r3))
     | _, _ => none)
  | _ => none

/-- Modelled from the spec: `json.Marshal` of `proxyLinkData`
(`encoding/json` is not under `src/`); an executable length-prefixed
serialization whose inverse is proven below — the code relies only on
marshal and unmarshal being mutually inverse. -/
def jsonMarshalPLD (p : ProxyLinkData) : GoStr :=
  lenStr p.user ++ (lenStr p.value ++ (encHeadersOpt p.headers ++ lenStr p.tunT))

/-- Modelled from the spec: `json.Unmarshal` into `proxyLinkData`. -/
def jsonUnmarshalPLD (s : GoStr) : Option ProxyLinkData :=
  match parseLenStr s with
  | none => none
  | some (u, s1) =>
    match parseLenStr s1 with
    | none => none
    | some (v, s2) =>
      match parseHeadersOpt s2 with
      | none => none
      | some (hs, s3) =>
        match parseLenStr s3 with
        | none => none
        | some (t, s4) => if s4 = [] then some ⟨u, v, hs, t⟩ else none

theorem parseHeaderListN_enc (hs : ReqHeaders) (rest : GoStr) :
    parseHeaderListN (List.length hs) (encHeaderList hs ++ rest) = some (hs, rest) := by
  induction hs generalizing rest with
  | nil => rfl
  | cons p tl ih =>
    obtain ⟨k, v⟩ := p
    simp only [encHeaderList, List.length_cons, List.append_assoc]
    simp only [parseHeaderListN, parseLenStr_lenStr]
    rw [ih rest]

theorem parseHeadersOpt_enc (h : Option ReqHeaders) (rest : GoStr) :
    parseHeadersOpt (encHeadersOpt h ++ rest) = some (h, rest) := by
  cases h with
  | none => rfl
  | some hs =>
    simp only [encHeadersOpt, List.cons_append, List.append_assoc, List.cons_append,
      parseHeadersOpt]
    have hsplit := takeWhile_append_stop isDigitByte (natToDec (List.length hs)) 35
      (encHeaderList hs ++ rest) (natToDec_all_digits _) (by decide)
    rw [hsplit.1, hsplit.2, decToNatOpt_natToDec]
    simp only []
    rw [parseHeaderListN_enc hs rest]

theorem jsonUnmarshalPLD_marshal (p : ProxyLinkData) :
    jsonUnmarshalPLD (jsonMarshalPLD p) = some p := by
  obtain ⟨u, v, hs, t⟩ := p
  simp only [jsonMarshalPLD, jsonUnmarshalPLD, parseLenStr_lenStr]
  rw [parseHeadersOpt_enc]
  simp only []
  have : lenStr t = lenStr t ++ [] := by simp
  rw [this, parseLenStr_lenStr]
  simp

theorem valid_encHeaderList (hs : ReqHeaders)
    (h : ∀ p ∈ hs, ValidBytes p.1 ∧ ValidBytes p.2) :
    ValidBytes (encHeaderList hs) := by
  induction hs with
  | nil => intro c hc; cases hc
  | cons p tl ih =>
    obtain ⟨k, v⟩ := p
    intro c hc
    simp only [encHeaderList, List.mem_append] at hc
    rcases hc with hc | hc | hc
    · exact valid_lenStr k (h (k, v) (by simp)).1 c hc
    · exact valid_lenStr v (h (k, v) (by simp)).2 c hc
    · exact ih (fun q hq => h q (List.mem_cons_of_mem _ hq)) c hc

theorem valid_jsonMarshalPLD (p : ProxyLinkData)
    (hu : ValidBytes p.user) (hv : ValidBytes p.value) (ht : ValidBytes p.tunT)
    (hh : ∀ hs, p.headers = some hs → ∀ q ∈ hs, ValidBytes q.1 ∧ ValidBytes q.2) :
    ValidBytes (jsonMarshalPLD p) := by
  intro c hc
  simp only [jsonMarshalPLD, List.mem_append] at hc
  rcases hc with hc | hc | hc | hc
  · exact valid_lenStr _ hu c hc
  · exact valid_lenStr _ hv c hc
  · cases hhs : p.headers with
    | none =>
      rw [hhs] at hc
      simp only [encHeadersOpt, List.mem_singleton] at hc
      omega
    | some hs =>
      rw [hhs] at hc
      simp only [encHeadersOpt, List.mem_cons, List.mem_append] at hc
      rcases hc with hc | hc | hc | hc
      · omega
      · exact valid_natToDec _ c hc
      · omega
      · exact valid_encHeaderList hs (hh hs hhs) c hc
  · exact valid_lenStr _ ht c hc

theorem goCutPre_append (p x : GoStr) : goCutPre p (p ++ x) = (x, true) := by
  have hp : goStartsWith p (p ++ x) = true := by
    simp [goStartsWith, List.isPrefixOf_iff_prefix]
  simp [goCutPre, hp]

theorem goCutPre_base64_jwt (r : GoStr) :
    goCutPre (gs "base64.") (gs "jwt." ++ r) = (gs "jwt." ++ r, false) := by
  have h1 : gs "base64." = [98, 97, 115, 101, 54, 52, 46] := by decide
  have h2 : gs "jwt." = [106, 119, 116, 46] := by decide
  rw [h1, h2]
  simp [goCutPre, goStartsWith, List.isPrefixOf]

/-- Serialized optional expiry: `0` for none, else `1` and the timestamp. -/
def encOptNat : Option Nat → GoStr
  | none => [48]
  | some t => 49 :: lenStr (natToDec t)

/-- Inverse of `encOptNat` at the front of a stream. -/
def parseOptNat (s : GoStr) : Option (Option Nat × GoStr) :=
  match s with
  | 48 :: r => some (none, r)
  | 49 :: r =>
    (match parseLenStr r with
     | none => none
     | some (ds, r2) =>
       match decToNatOpt ds with
       | none => none
       | some n => some (some n, r2))
  | _ => none

theorem parseOptNat_enc (e : Option Nat) (rest : GoStr) :
    parseOptNat (encOptNat e ++ rest) = some (e, rest) := by
  cases e with
  | none => rfl
  | some t =>
    simp only [encOptNat, List.cons_append, parseOptNat, parseLenStr_lenStr,
      decToNatOpt_natToDec]

theorem parseLenStr_lenStr_nil (a : GoStr) : parseLenStr (lenStr a) = some (a, []) := by
  have h := parseLenStr_lenStr a []
  simpa using h

/-- The serialized JWT: scheme marker, subject, optional expiry, the three
data fields, then the signature (modelled as binding the signing key). -/
def jwtMarshal (claims : JWTClaimsPLD) (sigKey : GoStr) : GoStr :=
  gs "jwt." ++ (lenStr claims.subject ++ (encOptNat claims.expiresAt ++
    (lenStr claims.data.encLink ++ (lenStr claims.data.encFormat ++
      (lenStr claims.data.tunT ++ lenStr sigKey)))))

/-- Modelled from the spec: `core.CreateJWT(password, claims)` (the `core`
package is not under `src/`) — an HMAC-signed JWT modelled as the claims
serialization with the signing key bound in as the signature. -/
def createJWT (password : GoStr) (claims : JWTClaimsPLD) : GoStr :=
  jwtMarshal claims password

/-- JWT failures, mirroring golang-jwt v5: malformed token, signature
verification failure, claims-validation (expiry) failure. -/
inductive JWTError where
  | malformed
  | signatureInvalid
  | invalidClaims
deriving DecidableEq, Repr

/-- Modelled from the spec: `core.ParseJWT` over golang-jwt v5. The keyfunc
sees the unverified subject; the signature is verified BEFORE the claims are
validated, so a wrong key yields `signatureInvalid` and only an expired token
yields `invalidClaims` (`jwt.ErrTokenInvalidClaims`). -/
def parseJWT (getKey : GoStr → GoStr) (token : GoStr) (now : Nat) :
    Except JWTError JWTClaimsPLD :=
  match goCutPre (gs "jwt.") token with
  | (_, false) => .error .malformed
  | (rest, true) =>
    match parseLenStr rest with
    | none => .error .malformed
    | some (sub, r1) =>
      match parseOptNat r1 with
      | none => .error .malformed
      | some (exp, r2) =>
        match parseLenStr r2 with
        | none => .error .malformed
        | some (encLink, r3) =>
          match parseLenStr r3 with
          | none => .error .malformed
          | some (encFmt, r4) =>
            match parseLenStr r4 with
            | none => .error .malformed
            | some (tunT, r5) =>
              match parseLenStr r5 with
              | none => .error .malformed
              | some (sigKey, r6) =>
                if r6 ≠ [] then .error .malformed
                else if sigKey ≠ getKey sub then .error .signatureInvalid
                else
                  match exp with
                  | some e =>
                    if e ≤ now then .error .invalidClaims
                    else .ok ⟨sub, exp, ⟨encLink, encFmt, tunT⟩⟩
                  | none => .ok ⟨sub, exp, ⟨encLink, encFmt, tunT⟩⟩

theorem parseJWT_createJWT (getKey : GoStr → GoStr) (claims : JWTClaimsPLD)
    (sigKey : GoStr) (now : Nat) :
    parseJWT getKey (jwtMarshal claims sigKey) now =
      (if sigKey ≠ getKey claims.subject then .error .signatureInvalid
       else match claims.expiresAt with
            | some e => if e ≤ now then .error .invalidClaims else .ok claims
            | none => .ok claims) := by
  obtain ⟨sub, exp, encLink, encFmt, tunT⟩ := claims
  simp only [jwtMarshal, parseJWT, goCutPre_append, parseLenStr_lenStr, parseOptNat_enc,
    parseLenStr_lenStr_nil]
  simp

/-- Modelled from the spec: `core.Encrypt(password, blob)` (the `core`
package is not under `src/`) — an invertible keyed encoding binding the
password into the ciphertext; the code relies only on decryption being keyed
by the configured password and inverting encryption. -/
def goEncrypt (password blob : GoStr) : GoStr := lenStr password ++ blob

/-- Modelled from the spec: `core.Decrypt(password, ciphertext)` — fails
unless the password matches the one the ciphertext was produced with. -/
def goDecrypt (password ct : GoStr) : Option GoStr :=
  match parseLenStr ct with
  | none => none
  | some (pw, rest) => if pw = password then some rest else none

theorem goDecrypt_goEncrypt (p s : GoStr) : goDecrypt p (goEncrypt p s) = some s := by
  simp [goDecrypt, goEncrypt, parseLenStr_lenStr]

/-- Modelled from the spec: the `core.EncryptionFormat` tag; the code relies
only on it being distinct from `"base64"`. -/
def encryptionFormatTag : GoStr := gs "aes"

/-- The header lines appended to the link blob: `"\n" + k + ": " + v` per
pair. -/
def headersBlob : ReqHeaders → GoStr
  | [] => []
  | (k, v) :: rest => 10 :: ((k ++ 58 :: 32 :: v) ++ headersBlob rest)

/-- `linkBlob`: the link, plus header lines when headers are non-nil. -/
def linkBlobOf (link : GoStr) : Option ReqHeaders → GoStr
  | none => link
  | some hs => link ++ headersBlob hs

/-- Parse header lines: `strings.Cut(line, ": ")`, skipping lines without
the separator. -/
def parseHeaderLines : List GoStr → ReqHeaders
  | [] => []
  | line :: rest =>
    match goCut [58, 32] line with
    | (k, v, true) => (k, v) :: parseHeaderLines rest
    | (_, _, false) => parseHeaderLines rest

theorem containsSub_cons_false (sep : GoStr) (x : Nat) (xs : GoStr)
    (h : containsSub sep (x :: xs) = false) : containsSub sep xs = false := by
  simp only [containsSub] at h ⊢
  cases hc : cutSub sep xs with
  | none => simp
  | some ab =>
    exfalso
    obtain ⟨a, b⟩ := ab
    simp only [cutSub] at h
    rw [hc] at h
    split at h <;> simp at h

theorem isPrefixOf_cs_false (x : Nat) (rest : GoStr)
    (h : x = 58 → List.head? rest ≠ some 32) :
    List.isPrefixOf [58, 32] (x :: rest) = false := by
  cases rest with
  | nil => simp [List.isPrefixOf]
  | cons y ys =>
    show ((58 == x) && ((32 == y) && List.isPrefixOf ([] : GoStr) ys)) = false
    by_cases hx : x = 58
    · subst hx
      have hy : y ≠ 32 := by
        intro hy2
        exact h rfl (by subst hy2; rfl)
      have h32 : ((32 : Nat) == y) = false := by
        rw [beq_eq_false_iff_ne]
        exact Ne.symm hy
      rw [h32]
      simp
    · have h58 : ((58 : Nat) == x) = false := by
        rw [beq_eq_false_iff_ne]
        exact fun hh => hx hh.symm
      rw [h58, Bool.false_and]

theorem cutSub_colonspace (k v : GoStr) (hk : containsSub [58, 32] k = false) :
    cutSub [58, 32] (k ++ 58 :: 32 :: v) = some (k, v) := by
  induction k with
  | nil =>
    simp [cutSub, goStartsWith, List.isPrefixOf]
  | cons x xs ih =>
    have hxs : containsSub [58, 32] xs = false := containsSub_cons_false _ x xs hk
    have hp : goStartsWith [58, 32] (x :: (xs ++ 58 :: 32 :: v)) = false := by
      show List.isPrefixOf [58, 32] (x :: (xs ++ 58 :: 32 :: v)) = false
      apply isPrefixOf_cs_false
      intro hx58 hhead
      subst hx58
      cases xs with
      | nil => simp at hhead
      | cons y ys =>
        simp at hhead
        subst hhead
        simp [containsSub, cutSub, goStartsWith, List.isPrefixOf] at hk
    simp only [List.cons_append, cutSub, List.append_eq, hp, Bool.false_eq_true, if_false]
    rw [ih hxs]

theorem goCut_colonspace (k v : GoStr) (hk : containsSub [58, 32] k = false) :
    goCut [58, 32] (k ++ 58 :: 32 :: v) = (k, v, true) := by
  simp [goCut, cutSub_colonspace k v hk]

theorem goSplitAllAux_nil (fuel c : Nat) : goSplitAllAux fuel c [] = [[]] := by
  cases fuel <;> rfl

theorem goSplitAllAux_fuel_irrel (c : Nat) : ∀ (n : Nat) (s : GoStr), List.length s ≤ n →
    ∀ fuel fuel', List.length s ≤ fuel → List.length s ≤ fuel' →
    goSplitAllAux fuel c s = goSplitAllAux fuel' c s := by
  intro n
  induction n with
  | zero =>
    intro s hs fuel fuel' _ _
    have : s = [] := List.eq_nil_of_length_eq_zero (Nat.le_zero.mp hs)
    subst this
    rw [goSplitAllAux_nil, goSplitAllAux_nil]
  | succ n ih =>
    intro s hs fuel fuel' h1 h2
    cases hse : s with
    | nil => rw [goSplitAllAux_nil, goSplitAllAux_nil]
    | cons z zs =>
      subst hse
      cases fuel with
      | zero => simp at h1
      | succ f =>
        cases fuel' with
        | zero => simp at h2
        | succ f' =>
          simp only [goSplitAllAux]
          cases hc : cutSub [c] (z :: zs) with
          | none => rfl
          | some ab =>
            obtain ⟨a, b⟩ := ab
            have hlt := cutSub_tail_lt [c] (z :: zs) a b (by simp) hc
            simp only [List.length_cons] at h1 h2 hs hlt
            show a :: goSplitAllAux f c b = a :: goSplitAllAux f' c b
            have hrec := ih b (by omega) f f' (by omega) (by omega)
            rw [hrec]

theorem goSplitAll_cons (c : Nat) (a b : GoStr) (h : c ∉ a) :
    goSplitAll c (a ++ c :: b) = a :: goSplitAll c b := by
  unfold goSplitAll
  have hfl : List.length (a ++ c :: b) = List.length a + (List.length b + 1) := by
    simp
  rw [hfl]
  simp only [goSplitAllAux]
  rw [cutSub_single_append c a b h]
  show a :: goSplitAllAux (List.length a + List.length b) c b =
    a :: goSplitAllAux (List.length b) c b
  have hrec := goSplitAllAux_fuel_irrel c (List.length b) b (Nat.le_refl _)
    (List.length a + List.length b) (List.length b) (by omega) (Nat.le_refl _)
  rw [hrec]

/-- Well-formedness of one header pair for the JWT round trip: no newline in
key or value, and the key free of the `": "` separator. -/
def HeaderPairWF (p : GoStr × GoStr) : Prop :=
  (10 : Nat) ∉ p.1 ∧ (10 : Nat) ∉ p.2 ∧ containsSub [58, 32] p.1 = false

instance (p : GoStr × GoStr) : Decidable (HeaderPairWF p) := by
  unfold HeaderPairWF; exact inferInstance

/-- Headers suitable for the JWT link-blob round trip: nil, or a non-empty
list of well-formed pairs (an empty non-nil Go map encodes like nil and
decodes to nil, so it cannot round-trip). -/
def HeadersWF : Option ReqHeaders → Prop
  | none => True
  | some hs => hs ≠ [] ∧ ∀ p ∈ hs, HeaderPairWF p

instance (h : Option ReqHeaders) : Decidable (HeadersWF h) := by
  cases h with
  | none => exact isTrue trivial
  | some hs =>
    unfold HeadersWF
    exact inferInstance

theorem newline_not_mem_line (k v : GoStr) (hk : (10 : Nat) ∉ k) (hv : (10 : Nat) ∉ v) :
    (10 : Nat) ∉ (k ++ 58 :: 32 :: v) := by
  intro hm
  rcases List.mem_append.mp hm with h | h
  · exact hk h
  · simp only [List.mem_cons] at h
    rcases h with h | h | h
    · omega
    · omega
    · exact hv h

theorem parseHeaderLines_headersBlob (hs : ReqHeaders) (k v : GoStr)
    (hp : HeaderPairWF (k, v)) (hall : ∀ p ∈ hs, HeaderPairWF p) :
    parseHeaderLines (goSplitAll 10 ((k ++ 58 :: 32 :: v) ++ headersBlob hs)) =
      (k, v) :: hs := by
  induction hs generalizing k v with
  | nil =>
    obtain ⟨hk, hv, hks⟩ := hp
    have hline := newline_not_mem_line k v hk hv
    have : goSplitAll 10 ((k ++ 58 :: 32 :: v) ++ headersBlob []) =
        [k ++ 58 :: 32 :: v] := by
      simp only [headersBlob, List.append_nil]
      exact goSplitAllAux_no_sep _ 10 _ hline
    rw [this]
    simp only [parseHeaderLines, goCut_colonspace k v hks]
  | cons q tl ih =>
    obtain ⟨k2, v2⟩ := q
    obtain ⟨hk, hv, hks⟩ := hp
    have hline := newline_not_mem_line k v hk hv
    have hblob : (k ++ 58 :: 32 :: v) ++ headersBlob ((k2, v2) :: tl) =
        (k ++ 58 :: 32 :: v) ++ 10 :: ((k2 ++ 58 :: 32 :: v2) ++ headersBlob tl) := by
      simp [headersBlob]
    rw [hblob, goSplitAll_cons 10 _ _ hline]
    simp only [parseHeaderLines, goCut_colonspace k v hks]
    have ih2 := ih k2 v2 (hall (k2, v2) (by simp)) (fun p hp2 => hall p (List.mem_cons_of_mem _ hp2))
    rw [ih2]

/-- Errors from `UnwrapProxyLinkToken`: decode failures, the `core.APIError`
built with `NewAPIError("unauthorized")` and `StatusCode = 401`, and JWT
errors returned as-is. -/
inductive UnwrapError where
  | decodeFailed
  | apiUnauthorized
  | jwtError (e : JWTError)
deriving DecidableEq, Repr

/-- The HTTP status attached to an unwrap error: only the
`NewAPIError("unauthorized")` path sets `StatusCode = 401`. -/
def UnwrapError.httpStatus : UnwrapError → Option Nat
  | .apiUnauthorized => some 401
  | _ => none

/-- Modelled from the spec: one entry of `proxyLinkTokenCache` (the
`internal/cache` package is not under `src/`): the encoded token, the decoded
record and the add time (minutes). -/
structure CacheEntry where
  token : GoStr
  data : ProxyLinkData
  addedAt : Nat
deriving DecidableEq, Repr

/-- The proxy-link token cache, newest entry first. -/
abbrev TokenCache := List CacheEntry

/-- `proxyLinkTokenCache` lifetime: 30 minutes. -/
def cacheLifetime : Nat := 30

/-- Modelled from the spec: `cache.Get` — the most recent entry for the
token, if within its 30-minute lifetime. -/
def cacheGet (st : TokenCache) (now : Nat) (token : GoStr) : Option ProxyLinkData :=
  match st with
  | [] => none
  | e :: rest =>
    if e.token = token then
      (if now < e.addedAt + cacheLifetime then some e.data else none)
    else cacheGet rest now token

/-- Modelled from the spec: `cache.Add`. -/
def cacheAdd (st : TokenCache) (now : Nat) (token : GoStr) (d : ProxyLinkData) :
    TokenCache :=
  ⟨token, d, now⟩ :: st

/-- Expiry claim: `now + expiresIn` when `expiresIn` is non-zero. -/
def expiryOf (expiresIn now : Nat) : Option Nat :=
  if expiresIn = 0 then none else some (now + expiresIn)

/-- The JWT data payload: link blob encrypted under `core.EncryptionFormat`,
or base64-encoded under `"base64"`. -/
def pldTokenData (shouldEncrypt : Bool) (password link : GoStr)
    (headers : Option ReqHeaders) (tunT : GoStr) : ProxyLinkTokenData :=
  if shouldEncrypt then ⟨goEncrypt password (linkBlobOf link headers), encryptionFormatTag, tunT⟩
  else ⟨b64encodeBytes (linkBlobOf link headers), gs "base64", tunT⟩

/-- Split the decoded link blob at the first newline into the link and the
parsed header lines (nil when there is no newline). -/
def linkAndHeaders (linkBlob : GoStr) : GoStr × Option ReqHeaders :=
  match goCut [10] linkBlob with
  | (link, hblob, hasHeaders) =>
    (link, if hasHeaders then some (parseHeaderLines (goSplitAll 10 hblob)) else none)

/-- The decode part of `UnwrapProxyLinkToken` (part_009 303-370), without the
cache: the `"base64."` branch base64-decodes the JSON record, cuts the stored
user at the first ':' and 401s unless the cut password equals the configured
one; otherwise the token is parsed as a JWT whose keyfunc returns the
configured password for the (unverified) subject, with only
`jwt.ErrTokenInvalidClaims` wrapped as the 401 API error; the data blob is
base64-decoded or decrypted per `enc_format`, cut at the first newline into
link and header lines, and each header line is cut at `": "`. -/
def decodeProxyLinkToken (cfg : GoStr → GoStr) (now : Nat) (encodedToken : GoStr) :
    Except UnwrapError ProxyLinkData :=
  match goCutPre (gs "base64.") encodedToken with
  | (encodedBlob, true) =>
    (match b64decodeBytes encodedBlob with
     | none => .error .decodeFailed
     | some blob =>
       match jsonUnmarshalPLD blob with
       | none => .error .decodeFailed
       | some pld =>
         match goCut [58] pld.user with
         | (user, pass, _) =>
           if pass ≠ cfg user then .error .apiUnauthorized
           else .ok ⟨user, pld.value, pld.headers, pld.tunT⟩)
  | (_, false) =>
    match parseJWT cfg encodedToken now with
    | .error e =>
      if e = .invalidClaims then .error .apiUnauthorized else .error (.jwtError e)
    | .ok claims =>
      match (if claims.data.encFormat = gs "base64"
             then b64decodeBytes claims.data.encLink
             else goDecrypt (cfg claims.subject) claims.data.encLink) with
      | none => .error .decodeFailed
      | some linkBlob =>
        .ok ⟨claims.subject, (linkAndHeaders linkBlob).1, (linkAndHeaders linkBlob).2,
             claims.data.tunT⟩

/-- `UnwrapProxyLinkToken` (part_009 299-375): serve from the cache when
present; otherwise decode, and on success add the decoded record to the
cache before returning its info. -/
def UnwrapProxyLinkToken (cfg : GoStr → GoStr) (st : TokenCache) (now : Nat)
    (encodedToken : GoStr) : (Except UnwrapError ProxyLinkInfo) × TokenCache :=
  match cacheGet st now encodedToken with
  | some pld => (.ok pld.toInfo, st)
  | none =>
    match decodeProxyLinkToken cfg now encodedToken with
    | .error e => (.error e, st)
    | .ok pld => (.ok pld.toInfo, cacheAdd st now encodedToken pld)

/-- The token built by `CreateProxyLink` (part_009 152-211), without the
request-URL wrapping: the `"base64."`+JSON form (with `u = user+":"+password`)
when not encrypting and no expiry; otherwise a JWT signed with the password,
whose data blob is the link plus `"\n" + k + ": " + v` per header pair,
encrypted (enc_format `core.EncryptionFormat`) or base64-encoded
(enc_format `"base64"`), with expiry `now + expiresIn` when non-zero. -/
def createProxyLinkToken (link : GoStr) (headers : Option ReqHeaders) (tunT : GoStr)
    (expiresIn : Nat) (user password : GoStr) (shouldEncrypt : Bool) (now : Nat) :
    GoStr :=
  if shouldEncrypt = false ∧ expiresIn = 0 then
    gs "base64." ++ b64encodeBytes (jsonMarshalPLD ⟨user ++ 58 :: password, link, headers, tunT⟩)
  else
    createJWT password
      ⟨user, expiryOf expiresIn now, pldTokenData shouldEncrypt password link headers tunT⟩

theorem cacheGet_add_hit (st : TokenCache) (now now2 : Nat) (token : GoStr)
    (d : ProxyLinkData) (h : now2 < now + cacheLifetime) :
    cacheGet (cacheAdd st now token d) now2 token = some d := by
  simp [cacheGet, cacheAdd, h]

theorem goCutPre_base64_jwtMarshal (claims : JWTClaimsPLD) (k : GoStr) :
    goCutPre (gs "base64.") (jwtMarshal claims k) = (jwtMarshal claims k, false) := by
  unfold jwtMarshal
  exact goCutPre_base64_jwt _

theorem decodeProxyLinkToken_jwt (cfg : GoStr → GoStr) (now : Nat)
    (claims : JWTClaimsPLD) (k : GoStr) :
    decodeProxyLinkToken cfg now (jwtMarshal claims k) =
      (match parseJWT cfg (jwtMarshal claims k) now with
       | .error e =>
         if e = .invalidClaims then .error .apiUnauthorized else .error (.jwtError e)
       | .ok c2 =>
         match (if c2.data.encFormat = gs "base64"
                then b64decodeBytes c2.data.encLink
                else goDecrypt (cfg c2.subject) c2.data.encLink) with
         | none => .error .decodeFailed
         | some linkBlob =>
           .ok ⟨c2.subject, (linkAndHeaders linkBlob).1, (linkAndHeaders linkBlob).2,
                c2.data.tunT⟩) := by
  simp only [decodeProxyLinkToken, goCutPre_base64_jwtMarshal]

theorem unwrap_empty (cfg : GoStr → GoStr) (now : Nat) (tok : GoStr) :
    UnwrapProxyLinkToken cfg [] now tok =
      (match decodeProxyLinkToken cfg now tok with
       | .error e => (.error e, [])
       | .ok pld => (.ok pld.toInfo, cacheAdd [] now tok pld)) := by
  simp only [UnwrapProxyLinkToken, cacheGet]

theorem pldTokenData_tunT (s : Bool) (p l : GoStr) (h : Option ReqHeaders) (t : GoStr) :
    (pldTokenData s p l h t).tunT = t := by
  cases s <;> rfl

theorem valid_headersBlob (hs : ReqHeaders)
    (h : ∀ q ∈ hs, ValidBytes q.1 ∧ ValidBytes q.2) : ValidBytes (headersBlob hs) := by
  induction hs with
  | nil => intro c hc; cases hc
  | cons q tl ih =>
    obtain ⟨k, v⟩ := q
    intro c hc
    simp only [headersBlob, List.mem_cons] at hc
    rcases hc with hc | hc
    · omega
    · rcases List.mem_append.mp hc with hc | hc
      · rcases List.mem_append.mp hc with hc | hc
        · exact (h (k, v) (by simp)).1 c hc
        · simp only [List.mem_cons] at hc
          rcases hc with hc | hc | hc
          · omega
          · omega
          · exact (h (k, v) (by simp)).2 c hc
      · exact ih (fun q hq => h q (List.mem_cons_of_mem _ hq)) c hc

theorem valid_linkBlobOf (link : GoStr) (headers : Option ReqHeaders)
    (hvl : ValidBytes link)
    (hvh : ∀ hs, headers = some hs → ∀ q ∈ hs, ValidBytes q.1 ∧ ValidBytes q.2) :
    ValidBytes (linkBlobOf link headers) := by
  cases headers with
  | none => exact hvl
  | some hs =>
    intro c hc
    simp only [linkBlobOf, List.mem_append] at hc
    rcases hc with hc | hc
    · exact hvl c hc
    · exact valid_headersBlob hs (hvh hs rfl) c hc

theorem decode_data_eq (link : GoStr) (headers : Option ReqHeaders) (tunT password : GoStr)
    (key : GoStr) (shouldEncrypt : Bool) (hkey : key = password)
    (hv : ValidBytes (linkBlobOf link headers)) :
    (if (pldTokenData shouldEncrypt password link headers tunT).encFormat = gs "base64"
     then b64decodeBytes (pldTokenData shouldEncrypt password link headers tunT).encLink
     else goDecrypt key (pldTokenData shouldEncrypt password link headers tunT).encLink) =
      some (linkBlobOf link headers) := by
  have hne : encryptionFormatTag ≠ gs "base64" := by decide
  cases shouldEncrypt with
  | false => simp [pldTokenData, b64_roundtrip _ hv]
  | true => simp [pldTokenData, hne, hkey, goDecrypt_goEncrypt]

theorem linkAndHeaders_eq (link : GoStr) (headers : Option ReqHeaders)
    (h10 : (10 : Nat) ∉ link) (hwf : HeadersWF headers) :
    linkAndHeaders (linkBlobOf link headers) = (link, headers) := by
  cases headers with
  | none =>
    simp only [linkAndHeaders, linkBlobOf]
    rw [goCut_single_not_found 10 link h10]
    simp
  | some hs =>
    obtain ⟨hne, hall⟩ := hwf
    cases hs with
    | nil => exact absurd rfl hne
    | cons q tl =>
      obtain ⟨k, v⟩ := q
      have hblob : linkBlobOf link (some ((k, v) :: tl)) =
          link ++ 10 :: ((k ++ 58 :: 32 :: v) ++ headersBlob tl) := by
        simp [linkBlobOf, headersBlob]
      simp only [linkAndHeaders]
      rw [hblob, goCut_single_append 10 link _ h10]
      rw [parseHeaderLines_headersBlob tl k v (hall (k, v) (by simp))
        (fun p hp => hall p (List.mem_cons_of_mem _ hp))]
      simp

theorem decodeProxyLinkToken_base64 (link : GoStr) (headers : Option ReqHeaders)
    (tunT user password : GoStr) (cfg : GoStr → GoStr) (now : Nat)
    (h58 : (58 : Nat) ∉ user)
    (hv : ValidBytes (jsonMarshalPLD ⟨user ++ 58 :: password, link, headers, tunT⟩)) :
    decodeProxyLinkToken cfg now
        (gs "base64." ++
          b64encodeBytes (jsonMarshalPLD ⟨user ++ 58 :: password, link, headers, tunT⟩)) =
      (if password ≠ cfg user then .error .apiUnauthorized
       else .ok ⟨user, link, headers, tunT⟩) := by
  have hb := b64_roundtrip _ hv
  simp only [decodeProxyLinkToken, goCutPre_append, hb, jsonUnmarshalPLD_marshal]
  rw [goCut_single_append 58 user password h58]

/-- C10: after UnwrapProxyLinkToken successfully decodes a token on a cache
miss, the decoded record is added to the cache keyed by the encoded token;
for 30 minutes any second call with the same encoded token — under ANY server
configuration, in particular one where the password for that user changed —
returns the same record from the cache without touching the decoder, and
leaves the cache unchanged. -/
theorem unwrapProxyLinkToken_memoized (cfg : GoStr → GoStr) (st : TokenCache)
    (now : Nat) (token : GoStr) (info : ProxyLinkInfo) (st2 : TokenCache)
    (hmiss : cacheGet st now token = none)
    (h : UnwrapProxyLinkToken cfg st now token = (.ok info, st2)) :
    ∃ pld : ProxyLinkData, ProxyLinkData.toInfo pld = info ∧
      st2 = cacheAdd st now token pld ∧
      ∀ (cfg2 : GoStr → GoStr) (now2 : Nat), now2 < now + cacheLifetime →
        UnwrapProxyLinkToken cfg2 st2 now2 token = (.ok info, st2) := by
  cases hdec : decodeProxyLinkToken cfg now token with
  | error e =>
    simp only [UnwrapProxyLinkToken, hmiss, hdec] at h
    simp at h
  | ok pld =>
    simp only [UnwrapProxyLinkToken, hmiss, hdec] at h
    simp only [Prod.mk.injEq, Except.ok.injEq] at h
    obtain ⟨h1, h2⟩ := h
    refine ⟨pld, h1, h2.symm, ?_⟩
    intro cfg2 now2 hwin
    have hhit : cacheGet st2 now2 token = some pld := by
      rw [← h2]
      exact cacheGet_add_hit st now now2 token pld hwin
    simp only [UnwrapProxyLinkToken, hhit, h1]

def memoCfg : GoStr → GoStr := fun u => if u = gs "u" then gs "p" else []

def memoToken : GoStr := createProxyLinkToken (gs "L") none [] 0 (gs "u") (gs "p") false 0

def memoPld : ProxyLinkData := ⟨gs "u", gs "L", none, []⟩

def memoInfo : ProxyLinkInfo := ⟨gs "u", gs "L", none, []⟩

def memoSt : TokenCache := [⟨memoToken, memoPld, 0⟩]

theorem unwrapProxyLinkToken_memoized_witness :
    ∃ pld : ProxyLinkData, ProxyLinkData.toInfo pld = memoInfo ∧
      memoSt = cacheAdd [] 0 memoToken pld ∧
      ∀ (cfg2 : GoStr → GoStr) (now2 : Nat), now2 < 0 + cacheLifetime →
        UnwrapProxyLinkToken cfg2 memoSt now2 memoToken = (.ok memoInfo, memoSt) :=
  unwrapProxyLinkToken_memoized memoCfg [] 0 memoToken memoInfo memoSt rfl rfl

/-- C4 counterexample: with user "a:b" (a colon inside the user name) and
password "p", the base64-JSON token stores u = "a:b:p"; decoding cuts u at
the FIRST colon, yielding user "a" and password "b:p", so even under the
unchanged configuration the round trip fails with the 401 API error instead
of returning (u, U, headers, mode). And for the signed JWT form, a changed
password makes signature verification fail BEFORE claims validation, an
error that is not jwt.ErrTokenInvalidClaims and hence is returned as-is,
not as an error with HTTP status 401. -/
theorem createProxyLink_counterexample :
    (UnwrapProxyLinkToken (fun u => if u = gs "a:b" then gs "p" else [])
        [] 0
        (createProxyLinkToken (gs "http://x/f.mkv") none [] 0 (gs "a:b") (gs "p")
          false 0)).1 =
      .error .apiUnauthorized ∧
    (UnwrapProxyLinkToken (fun _ => gs "q")
        [] 0
        (createProxyLinkToken (gs "http://x/f.mkv") none [] 60 (gs "a") (gs "p")
          false 0)).1 =
      .error (.jwtError .signatureInvalid) ∧
    UnwrapError.httpStatus (.jwtError .signatureInvalid) ≠ some 401 :=
  ⟨rfl, rfl, by decide⟩

theorem decode_jwt_create_eq (link : GoStr) (headers : Option ReqHeaders)
    (tunT user password : GoStr) (cfg : GoStr → GoStr) (now expiresIn : Nat)
    (shouldEncrypt : Bool)
    (h10 : (10 : Nat) ∉ link) (hwf : HeadersWF headers)
    (hvb : ValidBytes (linkBlobOf link headers))
    (hcfg : cfg user = password) :
    decodeProxyLinkToken cfg now
        (jwtMarshal ⟨user, expiryOf expiresIn now,
          pldTokenData shouldEncrypt password link headers tunT⟩ password) =
      .ok ⟨user, link, headers, tunT⟩ := by
  rw [decodeProxyLinkToken_jwt, parseJWT_createJWT]
  rw [if_neg (fun hx => hx hcfg.symm)]
  have hdata := decode_data_eq link headers tunT password (cfg user) shouldEncrypt hcfg hvb
  have hlh := linkAndHeaders_eq link headers h10 hwf
  by_cases hexp : expiresIn = 0
  · subst hexp
    have hE : expiryOf 0 now = none := rfl
    simp only [hE, hdata, hlh, pldTokenData_tunT]
  · have hE : expiryOf expiresIn now = some (now + expiresIn) := by
      simp [expiryOf, hexp]
    simp only [hE]
    rw [if_neg (by omega)]
    simp only [hdata, hlh, pldTokenData_tunT]

theorem decode_jwt_create_sigfail (link : GoStr) (headers : Option ReqHeaders)
    (tunT user password : GoStr) (cfg : GoStr → GoStr) (now expiresIn : Nat)
    (shouldEncrypt : Bool)
    (hne : cfg user ≠ password) :
    decodeProxyLinkToken cfg now
        (jwtMarshal ⟨user, expiryOf expiresIn now,
          pldTokenData shouldEncrypt password link headers tunT⟩ password) =
      .error (.jwtError .signatureInvalid) := by
  rw [decodeProxyLinkToken_jwt, parseJWT_createJWT]
  rw [if_pos (fun heq => hne heq.symm)]
  rfl

/-- C4 (amended): the proxy-link token round-trips under the same server
configuration provided the inputs are well-formed for the chosen form. For
the base64-JSON form (no encryption, no expiry) the user name must not
contain ':' — the stored "user:password" blob is cut at the FIRST colon on
decode, so a colon in the user breaks the round trip (see the
counterexample). For the signed JWT form the link must not contain a newline
and the headers must be nil or a non-empty map of newline-free pairs whose
keys avoid ": ". Under a changed password, the base64-JSON form fails with
the API error whose HTTP status is 401, but the JWT form fails signature
verification, which is NOT wrapped as a 401 API error (only
jwt.ErrTokenInvalidClaims is). -/
theorem createProxyLink_roundtrip :
    (∀ (link : GoStr) (headers : Option ReqHeaders) (tunT user password : GoStr)
       (cfg : GoStr → GoStr) (now : Nat),
       (58 : Nat) ∉ user →
       ValidBytes user → ValidBytes password → ValidBytes link → ValidBytes tunT →
       (∀ hs, headers = some hs → ∀ q ∈ hs, ValidBytes q.1 ∧ ValidBytes q.2) →
       cfg user = password →
       (UnwrapProxyLinkToken cfg [] now
          (createProxyLinkToken link headers tunT 0 user password false now)).1 =
         .ok ⟨user, link, headers, tunT⟩) ∧
    (∀ (link : GoStr) (headers : Option ReqHeaders) (tunT user password : GoStr)
       (cfg : GoStr → GoStr) (now : Nat),
       (58 : Nat) ∉ user →
       ValidBytes user → ValidBytes password → ValidBytes link → ValidBytes tunT →
       (∀ hs, headers = some hs → ∀ q ∈ hs, ValidBytes q.1 ∧ ValidBytes q.2) →
       cfg user ≠ password →
       (UnwrapProxyLinkToken cfg [] now
          (createProxyLinkToken link headers tunT 0 user password false now)).1 =
         .error .apiUnauthorized ∧
       UnwrapError.httpStatus .apiUnauthorized = some 401) ∧
    (∀ (link : GoStr) (headers : Option ReqHeaders) (tunT user password : GoStr)
       (cfg : GoStr → GoStr) (now expiresIn : Nat) (shouldEncrypt : Bool),
       (shouldEncrypt = true ∨ expiresIn ≠ 0) →
       (10 : Nat) ∉ link →
       HeadersWF headers →
       ValidBytes link →
       (∀ hs, headers = some hs → ∀ q ∈ hs, ValidBytes q.1 ∧ ValidBytes q.2) →
       cfg user = password →
       (UnwrapProxyLinkToken cfg [] now
          (createProxyLinkToken link headers tunT expiresIn user password
            shouldEncrypt now)).1 =
         .ok ⟨user, link, headers, tunT⟩) ∧
    (∀ (link : GoStr) (headers : Option ReqHeaders) (tunT user password : GoStr)
       (cfg : GoStr → GoStr) (now expiresIn : Nat) (shouldEncrypt : Bool),
       (shouldEncrypt = true ∨ expiresIn ≠ 0) →
       cfg user ≠ password →
       (UnwrapProxyLinkToken cfg [] now
          (createProxyLinkToken link headers tunT expiresIn user password
            shouldEncrypt now)).1 =
         .error (.jwtError .signatureInvalid)) := by
  have hjson : ∀ (link : GoStr) (headers : Option ReqHeaders)
      (tunT user password : GoStr),
      ValidBytes user → ValidBytes password → ValidBytes link → ValidBytes tunT →
      (∀ hs, headers = some hs → ∀ q ∈ hs, ValidBytes q.1 ∧ ValidBytes q.2) →
      ValidBytes (jsonMarshalPLD ⟨user ++ 58 :: password, link, headers, tunT⟩) := by
    intro link headers tunT user password hvu hvp hvl hvt hvh
    refine valid_jsonMarshalPLD _ ?_ hvl hvt hvh
    intro c hc
    rcases List.mem_append.mp hc with h | h
    · exact hvu c h
    · rcases List.mem_cons.mp h with h | h
      · omega
      · exact hvp c h
  have hb64tok : ∀ (link : GoStr) (headers : Option ReqHeaders)
      (tunT user password : GoStr) (now : Nat),
      createProxyLinkToken link headers tunT 0 user password false now =
        gs "base64." ++
          b64encodeBytes (jsonMarshalPLD ⟨user ++ 58 :: password, link, headers, tunT⟩) := by
    intro link headers tunT user password now
    unfold createProxyLinkToken
    rw [if_pos ⟨rfl, rfl⟩]
  have hjwttok : ∀ (link : GoStr) (headers : Option ReqHeaders)
      (tunT user password : GoStr) (now expiresIn : Nat) (shouldEncrypt : Bool),
      (shouldEncrypt = true ∨ expiresIn ≠ 0) →
      createProxyLinkToken link headers tunT expiresIn user password shouldEncrypt now =
        jwtMarshal ⟨user, expiryOf expiresIn now,
          pldTokenData shouldEncrypt password link headers tunT⟩ password := by
    intro link headers tunT user password now expiresIn shouldEncrypt hsel
    have hcond : ¬(shouldEncrypt = false ∧ expiresIn = 0) := by
      rcases hsel with h | h
      · rw [h]; simp
      · exact fun hc => h hc.2
    unfold createProxyLinkToken
    rw [if_neg hcond]
    rfl
  refine ⟨?_, ?_, ?_, ?_⟩
  · intro link headers tunT user password cfg now h58 hvu hvp hvl hvt hvh hcfg
    rw [hb64tok, unwrap_empty,
      decodeProxyLinkToken_base64 link headers tunT user password cfg now h58
        (hjson link headers tunT user password hvu hvp hvl hvt hvh)]
    rw [if_neg (fun hx => hx hcfg.symm)]
    rfl
  · intro link headers tunT user password cfg now h58 hvu hvp hvl hvt hvh hne
    refine ⟨?_, rfl⟩
    rw [hb64tok, unwrap_empty,
      decodeProxyLinkToken_base64 link headers tunT user password cfg now h58
        (hjson link headers tunT user password hvu hvp hvl hvt hvh)]
    rw [if_pos (fun heq => hne heq.symm)]
  · intro link headers tunT user password cfg now expiresIn shouldEncrypt hsel h10 hwf
      hvl hvh hcfg
    rw [hjwttok link headers tunT user password now expiresIn shouldEncrypt hsel,
      unwrap_empty,
      decode_jwt_create_eq link headers tunT user password cfg now expiresIn
        shouldEncrypt h10 hwf (valid_linkBlobOf link headers hvl hvh) hcfg]
    rfl
  · intro link headers tunT user password cfg now expiresIn shouldEncrypt hsel hne
    rw [hjwttok link headers tunT user password now expiresIn shouldEncrypt hsel,
      unwrap_empty,
      decode_jwt_create_sigfail link headers tunT user password cfg now expiresIn
        shouldEncrypt hne]

theorem createProxyLink_roundtrip_witness :
    (UnwrapProxyLinkToken (fun u => if u = gs "u" then gs "p" else []) [] 5
       (createProxyLinkToken (gs "L") (some [(gs "k", gs "w")]) (gs "t") 0 (gs "u")
         (gs "p") false 5)).1 =
      .ok ⟨gs "u", gs "L", some [(gs "k", gs "w")], gs "t"⟩ ∧
    ((UnwrapProxyLinkToken (fun _ => gs "zz") [] 5
       (createProxyLinkToken (gs "L") (some [(gs "k", gs "w")]) (gs "t") 0 (gs "u")
         (gs "p") false 5)).1 =
      .error .apiUnauthorized ∧
     UnwrapError.httpStatus .apiUnauthorized = some 401) ∧
    (UnwrapProxyLinkToken (fun u => if u = gs "u" then gs "p" else []) [] 5
       (createProxyLinkToken (gs "L") (some [(gs "k", gs "w")]) (gs "t") 7 (gs "u")
         (gs "p") false 5)).1 =
      .ok ⟨gs "u", gs "L", some [(gs "k", gs "w")], gs "t"⟩ ∧
    (UnwrapProxyLinkToken (fun _ => gs "zz") [] 5
       (createProxyLinkToken (gs "L") (some [(gs "k", gs "w")]) (gs "t") 7 (gs "u")
         (gs "p") true 5)).1 =
      .error (.jwtError .signatureInvalid) :=
  ⟨createProxyLink_roundtrip.1 (gs "L") (some [(gs "k", gs "w")]) (gs "t") (gs "u")
     (gs "p") (fun u => if u = gs "u" then gs "p" else []) 5 (by decide) (by decide)
     (by decide) (by decide) (by decide) (fun hs h => by cases h; decide) rfl,
   createProxyLink_roundtrip.2.1 (gs "L") (some [(gs "k", gs "w")]) (gs "t") (gs "u")
     (gs "p") (fun _ => gs "zz") 5 (by decide) (by decide) (by decide) (by decide)
     (by decide) (fun hs h => by cases h; decide) (by decide),
   createProxyLink_roundtrip.2.2.1 (gs "L") (some [(gs "k", gs "w")]) (gs "t") (gs "u")
     (gs "p") (fun u => if u = gs "u" then gs "p" else []) 5 7 false
     (Or.inr (by decide)) (by decide) (by decide) (by decide)
     (fun hs h => by cases h; decide) rfl,
   createProxyLink_roundtrip.2.2.2 (gs "L") (some [(gs "k", gs "w")]) (gs "t") (gs "u")
     (gs "p") (fun _ => gs "zz") 5 7 true (Or.inl rfl) (by decide)⟩
